import Mathlib

/-!
go-servicebus: a verification development

A shallow embedding of the `servicebus` package (message.go, config.go,
sender.go, service.go, worker.go, server.go) and theorems about it.

Conventions of the embedding
* A Go `string` or `[]byte` is a list of bytes; a byte is a natural number
  below 256 (`Bytes`).  Conversions `string(b)` and `[]byte(s)` are the identity.
* Package level variables and the outside world (the id counter, the clock,
  the broker) are passed explicitly.
* A Go `error` is a value of `Error`; a function returning `(T, error)` returns
  `Except Error T`.
-/

namespace Servicebus

/-! ## Basic data -/

deriving instance DecidableEq for Except

/-- A Go byte string: each entry is a byte value (below 256). -/
abbrev Bytes := List Nat

/-- The bytes of an ASCII literal, used to write Go string literals. -/
def bytesOf (s : String) : Bytes := s.toList.map Char.toNat

/-- The error values of the package (`errors.New` variables), and `transport`
for an error handed back by the AMQP client library. -/
inductive Error where
  | ErrInvalidTarget
  | ErrInvalidEvent
  | ErrInvalidResponse
  | ErrCannotConnectToServer
  | ErrAlreadySend
  | ErrServiceNotFound
  | ErrInvalidToken
  | ErrTimeout
  | transport (code : Nat)
  deriving DecidableEq, Repr

/-- message.go, `type EventMessage struct`. -/
structure EventMessage where
  ID : Int
  Token : Bytes
  Category : Bytes
  Service : Bytes
  Params : Bytes
  deriving DecidableEq, Repr

/-- message.go, `type EventResponse struct`. -/
structure EventResponse where
  ID : Int
  Message : Bytes
  deriving DecidableEq, Repr

/-! ## message.go: createEventMessage -/

/-- Go `strings.Split(s, sep)` for a one byte separator: the segments between
the occurrences of `sep`, in order (one more segment than occurrences). -/
def stringsSplit (sep : Nat) : Bytes → List Bytes
  | [] => [[]]
  | b :: rest =>
    if b = sep then [] :: stringsSplit sep rest
    else
      match stringsSplit sep rest with
      | [] => [[b]]
      | seg :: segs => (b :: seg) :: segs

/-- The byte `.`. -/
def dot : Nat := 46

/-- Go `atomic.AddUint32(&globalID, 1)`: the new value of the 32 bit counter. -/
def atomicAddUint32 (v delta : Nat) : Nat := (v + delta) % 2 ^ 32

/-- message.go, `createEventMessage`.  The package variable `globalID` is
passed in and its new value is returned next to the result. -/
def createEventMessage (globalID : Nat) (target token msg : Bytes) :
    Nat × Except Error (Bytes × EventMessage) :=
  let parts := stringsSplit dot target
  if parts.length ≠ 3 then
    (globalID, .error .ErrInvalidTarget)
  else
    let id := atomicAddUint32 globalID 1
    let queue := parts.getD 0 []
    let ret : EventMessage :=
      { ID := (id : Int)
        Token := token
        Category := parts.getD 1 []
        Service := parts.getD 2 []
        Params := msg }
    (id, .ok (queue, ret))

/-- message.go, `createEventResponse`. -/
def createEventResponse (event : EventMessage) (msg : Bytes) : EventResponse :=
  { ID := event.ID, Message := msg }

/-- One `createEventMessage` call of a process: its arguments. -/
structure CreateCall where
  target : Bytes
  token : Bytes
  msg : Bytes

/-- The value of `globalID` after a process made the calls, in order, starting
from the value `globalID`. -/
def counterAfter (globalID : Nat) : List CreateCall → Nat
  | [] => globalID
  | c :: cs => counterAfter (createEventMessage globalID c.target c.token c.msg).1 cs

/-- The ids of the messages the successful calls among `calls` return, in call
order, when the process starts with the counter at `globalID`. -/
def createdIds (globalID : Nat) : List CreateCall → List Int
  | [] => []
  | c :: cs =>
    match createEventMessage globalID c.target c.token c.msg with
    | (g, .ok (_, m)) => m.ID :: createdIds g cs
    | (g, .error _) => createdIds g cs

/-- A call with a well-formed target. -/
def validCall : CreateCall := { target := bytesOf "a.b.c", token := [], msg := [] }

/-! ## Go `unicode/utf8` -/

/-- Go `utf8.RuneError`. -/
def runeError : Nat := 0xFFFD

/-- A UTF-8 continuation byte. -/
def isCont (b : Nat) : Bool := 0x80 ≤ b && b ≤ 0xBF

/-- Go `utf8.DecodeRune`: the first rune of the input and its width in bytes.  An
invalid or truncated encoding gives `(RuneError, 1)`, the empty input `(RuneError, 0)`. -/
def decodeRune : Bytes → Nat × Nat
  | [] => (runeError, 0)
  | p0 :: rest =>
    if p0 < 0x80 then (p0, 1)
    else if p0 < 0xC2 then (runeError, 1)
    else if p0 < 0xE0 then
      match rest with
      | b1 :: _ =>
        if isCont b1 then ((p0 % 32) * 64 + b1 % 64, 2) else (runeError, 1)
      | _ => (runeError, 1)
    else if p0 < 0xF0 then
      match rest with
      | b1 :: b2 :: _ =>
        let lo := if p0 = 0xE0 then 0xA0 else 0x80
        let hi := if p0 = 0xED then 0x9F else 0xBF
        if lo ≤ b1 && b1 ≤ hi && isCont b2 then
          (((p0 % 16) * 64 + b1 % 64) * 64 + b2 % 64, 3)
        else (runeError, 1)
      | _ => (runeError, 1)
    else if p0 < 0xF5 then
      match rest with
      | b1 :: b2 :: b3 :: _ =>
        let lo := if p0 = 0xF0 then 0x90 else 0x80
        let hi := if p0 = 0xF4 then 0x8F else 0xBF
        if lo ≤ b1 && b1 ≤ hi && isCont b2 && isCont b3 then
          ((((p0 % 8) * 64 + b1 % 64) * 64 + b2 % 64) * 64 + b3 % 64, 4)
        else (runeError, 1)
      | _ => (runeError, 1)
    else (runeError, 1)

/-- Go `string(rune(n))` (`utf8.AppendRune`): the UTF-8 encoding of a rune; a
surrogate or a value above `0x10FFFF` is encoded as `RuneError`. -/
def encodeRune (r : Nat) : Bytes :=
  if r < 0x80 then [r]
  else if r < 0x800 then [0xC0 + r / 64, 0x80 + r % 64]
  else if (0xD800 ≤ r && r ≤ 0xDFFF) || 0x10FFFF < r then [0xEF, 0xBF, 0xBD]
  else if r < 0x10000 then [0xE0 + r / 4096, 0x80 + r / 64 % 64, 0x80 + r % 64]
  else [0xF0 + r / 262144, 0x80 + r / 4096 % 64, 0x80 + r / 64 % 64, 0x80 + r % 64]

/-! ## Go `encoding/xml`: the tokenizer behind `Decoder.RawToken` (strict mode) -/

/-- Go `xml.isInCharacterRange`: the characters XML 1.0 allows. -/
def isInCharacterRange (r : Nat) : Bool :=
  r = 0x09 || r = 0x0A || r = 0x0D ||
    (0x20 ≤ r && r ≤ 0xD7FF) ||
    (0xE000 ≤ r && r ≤ 0xFFFD) ||
    (0x10000 ≤ r && r ≤ 0x10FFFF)

/-- The check at the end of `Decoder.text`: every rune of the data decodes
(no `RuneError` of width 1) and is an XML character. -/
def validCharsFuel : Nat → Bytes → Bool
  | _, [] => true
  | 0, _ :: _ => false
  | fuel + 1, b :: rest =>
    let (r, size) := decodeRune (b :: rest)
    if r = runeError ∧ size = 1 then false
    else if isInCharacterRange r then validCharsFuel fuel ((b :: rest).drop size)
    else false

/-- The character check of `Decoder.text` on a whole byte string. -/
def validChars (data : Bytes) : Bool := validCharsFuel data.length data


/-- The tables `first` and `second` of encoding/xml (the Unicode classes of the
characters that may start, respectively continue, an XML name), for the runes
from `0x80` on; the ASCII part is spelled out in `isFirst` and `isSecond`. -/
structure NameTables where
  first : Nat → Bool
  second : Nat → Bool

/-- Go `unicode.Is(first, c)`. -/
def isFirst (u : NameTables) (c : Nat) : Bool :=
  if c < 0x80 then c = 0x3A || (0x41 ≤ c && c ≤ 0x5A) || c = 0x5F || (0x61 ≤ c && c ≤ 0x7A)
  else u.first c

/-- Go `unicode.Is(second, c)`. -/
def isSecond (u : NameTables) (c : Nat) : Bool :=
  if c < 0x80 then (0x2D ≤ c && c ≤ 0x2E) || (0x30 ≤ c && c ≤ 0x39)
  else u.second c

/-- Go `xml.isNameByte`. -/
def isNameByte (c : Nat) : Bool :=
  (0x41 ≤ c && c ≤ 0x5A) || (0x61 ≤ c && c ≤ 0x7A) || (0x30 ≤ c && c ≤ 0x39) ||
    c = 0x5F || c = 0x3A || c = 0x2E || c = 0x2D

/-- The loop of `xml.isName` over the runes after the first one. -/
def isNameRest (u : NameTables) : Nat → Bytes → Bool
  | _, [] => true
  | 0, _ :: _ => false
  | fuel + 1, b :: rest =>
    let (c, n) := decodeRune (b :: rest)
    if c = runeError ∧ n = 1 then false
    else if isFirst u c || isSecond u c then isNameRest u fuel ((b :: rest).drop n)
    else false

/-- Go `xml.isName`. -/
def isName (u : NameTables) (s : Bytes) : Bool :=
  match s with
  | [] => false
  | _ :: _ =>
    let (c, n) := decodeRune s
    if c = runeError ∧ n = 1 then false
    else if isFirst u c then isNameRest u s.length (s.drop n)
    else false

/-- What `Decoder.readName` reports: the name read and the rest of the input;
no name at this place (nothing consumed, no error set); or the end of the
input inside the name (`mustgetc` sets a syntax error). -/
inductive ReadName where
  | ok (name rest : Bytes)
  | noName
  | eof

/-- The loop of `Decoder.readName`: bytes are taken while they are not an ASCII
byte outside `isNameByte`; the input must not end inside the name. -/
def readNameLoop : Bytes → Bytes → Option (Bytes × Bytes)
  | _, [] => none
  | acc, b :: rest =>
    if b < 0x80 && !isNameByte b then some (acc, b :: rest)
    else readNameLoop (acc ++ [b]) rest

/-- Go `Decoder.readName`. -/
def readName : Bytes → ReadName
  | [] => .eof
  | b :: rest =>
    if b < 0x80 && !isNameByte b then .noName
    else
      match readNameLoop [b] rest with
      | none => .eof
      | some (name, rest') => .ok name rest'

/-- Go `Decoder.name`: a name that passes `isName`; `none` is a syntax error. -/
def name (u : NameTables) (inp : Bytes) : Option (Bytes × Bytes) :=
  match readName inp with
  | .ok n rest => if isName u n then some (n, rest) else none
  | _ => none

/-- Go `xml.Name`. -/
structure Name where
  Space : Bytes
  Local : Bytes
  deriving DecidableEq, Repr

/-- Go `strings.Cut(s, ":")`: the parts before and after the first colon. -/
def cutColon : Bytes → Option (Bytes × Bytes)
  | [] => none
  | b :: rest =>
    if b = 0x3A then some ([], rest)
    else
      match cutColon rest with
      | none => none
      | some (pre, post) => some (b :: pre, post)

/-- Go `Decoder.nsname`: a name, split at its colon into space and local part. -/
def nsname (u : NameTables) (inp : Bytes) : Option (Name × Bytes) :=
  match name u inp with
  | none => none
  | some (s, rest) =>
    if s.count 0x3A > 1 then none
    else
      match cutColon s with
      | none => some ({ Space := [], Local := s }, rest)
      | some (space, loc) =>
        if space = [] ∨ loc = [] then some ({ Space := [], Local := s }, rest)
        else some ({ Space := space, Local := loc }, rest)

/-- Go `Decoder.space`: skip blanks, carriage returns, newlines and tabs. -/
def space : Bytes → Bytes
  | [] => []
  | b :: rest =>
    if b = 0x20 ∨ b = 0x0D ∨ b = 0x0A ∨ b = 0x09 then space rest else b :: rest

/-- The predefined entities of encoding/xml (`entity`): lt, gt, amp, apos, quot. -/
def entity (nm : Bytes) : Option Bytes :=
  if nm = [108, 116] then some [60]
  else if nm = [103, 116] then some [62]
  else if nm = [97, 109, 112] then some [38]
  else if nm = [97, 112, 111, 115] then some [39]
  else if nm = [113, 117, 111, 116] then some [34]
  else none

/-- The digit test of the character reference loop in `Decoder.text`. -/
def isRefDigit (base b : Nat) : Bool :=
  (0x30 ≤ b && b ≤ 0x39) ||
    (base = 16 && 0x61 ≤ b && b ≤ 0x66) || (base = 16 && 0x41 ≤ b && b ≤ 0x46)

/-- The value of a digit accepted by `isRefDigit`. -/
def refDigitVal (b : Nat) : Nat :=
  if b ≤ 0x39 then b - 0x30 else if b ≤ 0x46 then b - 0x41 + 10 else b - 0x61 + 10

/-- The digits of a character reference: the longest run of digits of the base
and what follows. -/
def refDigits (base : Nat) : Bytes → Bytes × Bytes
  | [] => ([], [])
  | b :: rest =>
    if isRefDigit base b then
      let (ds, after) := refDigits base rest
      (b :: ds, after)
    else ([], b :: rest)

/-- The entity branch of `Decoder.text` in strict mode with no user entities,
entered after `&`: a character reference `#ddd;` or `#xhhh;` of a value up to
`0x10FFFF`, or one of the five predefined names followed by `;`.  Anything
else, the end of the input included, is a syntax error (`none`).  The result is
the replacement text and the rest of the input. -/
def readEntity (inp : Bytes) : Option (Bytes × Bytes) :=
  match inp with
  | [] => none
  | 0x23 :: rest =>
    match rest with
    | [] => none
    | b :: rest' =>
      let base := if b = 0x78 then 16 else 10
      let start := if b = 0x78 then rest' else b :: rest'
      match start with
      | [] => none
      | _ :: _ =>
        match refDigits base start with
        | (ds, 0x3B :: after) =>
          let n := ds.foldl (fun acc d => acc * base + refDigitVal d) 0
          if ds ≠ [] ∧ n ≤ 0x10FFFF then some (encodeRune n, after) else none
        | _ => none
  | _ :: _ =>
    match readName inp with
    | .ok nm (0x3B :: after) =>
      match entity nm with
      | some txt => some (txt, after)
      | none => none
    | _ => none

/-- The end of `Decoder.text`: drop the last `trunc` bytes of the buffer and
check the characters. -/
def finishText (buf : Bytes) (trunc : Nat) (rest : Bytes) : Option (Bytes × Bytes) :=
  let data := buf.take (buf.length - trunc)
  if validChars data then some (data, rest) else none

/-- The `Input` loop of Go `Decoder.text(quote, cdata)` in strict mode.  `b0`,
`b1` are the two bytes read last, `buf` is `d.buf`; the result is the data and
the rest of the input, `none` a syntax error.  `]]>` ends a CDATA section and is
an error in ordinary text; inside a quoted string (`quote >= 0`) it is allowed.
`fuel` bounds the iterations (each one consumes input). -/
def textLoop (quote : Option Nat) (cdata : Bool) :
    Nat → Nat → Nat → Bytes → Bytes → Option (Bytes × Bytes)
  | 0, _, _, _, _ => none
  | fuel + 1, b0, b1, buf, inp =>
    match inp with
    | [] => if cdata then none else finishText buf 0 []
    | b :: rest =>
      if quote = none ∧ b0 = 0x5D ∧ b1 = 0x5D ∧ b = 0x3E then
        if cdata then finishText buf 2 rest else none
      else if b = 0x3C ∧ cdata = false then
        if quote.isSome then none else finishText buf 0 (b :: rest)
      else if quote = some b then finishText buf 0 rest
      else if b = 0x26 ∧ cdata = false then
        match readEntity rest with
        | none => none
        | some (txt, rest') => textLoop quote cdata fuel 0 0 (buf ++ txt) rest'
      else
        let buf' :=
          if b = 0x0D then buf ++ [0x0A]
          else if b1 = 0x0D ∧ b = 0x0A then buf
          else buf ++ [b]
        textLoop quote cdata fuel b1 b buf' rest

/-- Go `Decoder.text(quote, cdata)`. -/
def text (quote : Option Nat) (cdata : Bool) (inp : Bytes) : Option (Bytes × Bytes) :=
  textLoop quote cdata (inp.length + 1) 0 0 [] inp


/-- Go `xml.Attr`. -/
structure Attr where
  Name : Name
  Value : Bytes
  deriving DecidableEq, Repr

/-- Go `xml.Token`: the kinds of token `RawToken` returns. -/
inductive Token where
  | StartElement (name : Name) (attr : List Attr)
  | EndElement (name : Name)
  | CharData (data : Bytes)
  | Comment (data : Bytes)
  | ProcInst (target : Bytes) (inst : Bytes)
  | Directive (data : Bytes)
  deriving DecidableEq, Repr

/-- Go `Decoder.attrval` in strict mode: a quoted value. -/
def attrval (inp : Bytes) : Option (Bytes × Bytes) :=
  match inp with
  | [] => none
  | b :: rest => if b = 0x22 ∨ b = 0x27 then text (some b) false rest else none

/-- The attribute loop of `Decoder.rawToken` for an open element: the attributes
read so far are `attr`; the result is the attribute list, whether the element
is self-closing (`/>`), and the rest of the input.  `fuel` bounds the number
of attributes. -/
def attrLoop (u : NameTables) : Nat → List Attr → Bytes → Option (List Attr × Bool × Bytes)
  | 0, _, _ => none
  | fuel + 1, attr, inp =>
    match space inp with
    | [] => none
    | b :: rest =>
      if b = 0x2F then
        match rest with
        | 0x3E :: rest' => some (attr, true, rest')
        | _ => none
      else if b = 0x3E then some (attr, false, rest)
      else
        match nsname u (b :: rest) with
        | none => none
        | some (nm, rest1) =>
          match space rest1 with
          | 0x3D :: rest2 =>
            match attrval (space rest2) with
            | none => none
            | some (data, rest3) => attrLoop u fuel (attr ++ [{ Name := nm, Value := data }]) rest3
          | _ => none

/-- The loop of `rawToken` that reads a processing instruction up to `?>`; `b0`
is the byte read last.  The result is the instruction without `?>` and the
rest of the input. -/
def procInstLoop : Nat → Bytes → Bytes → Option (Bytes × Bytes)
  | _, _, [] => none
  | b0, buf, b :: rest =>
    if b0 = 0x3F ∧ b = 0x3E then some (buf.take (buf.length - 1), rest)
    else procInstLoop b (buf ++ [b]) rest

/-- The loop of `rawToken` that reads a comment up to `-->`; `--` inside a
comment is a syntax error.  The result is the comment without `-->`. -/
def commentLoop : Nat → Nat → Bytes → Bytes → Option (Bytes × Bytes)
  | _, _, _, [] => none
  | b0, b1, buf, b :: rest =>
    if b0 = 0x2D ∧ b1 = 0x2D then
      if b = 0x3E then some (buf.take (buf.length - 2), rest) else none
    else commentLoop b1 b (buf ++ [b]) rest

/-- The state of the directive loop of `rawToken`: outside a comment, with the
open quote (`0` for none) and the nesting depth of `<`; or inside a `<!--`
comment, with the number of bytes of the opening `!--` still to pass, the two
bytes read last, and the nesting depth to go on with behind the comment (a
comment starts outside quotes only). -/
inductive DirMode where
  | plain (inquote : Nat) (depth : Nat)
  | comment (opening : Nat) (b0 b1 : Nat) (depth : Nat)

/-- The loop of `rawToken` that reads a directive `<!...>`: quoted angle brackets
do not nest, and a comment inside is replaced by one blank and leaves the
nesting depth as it is. -/
def directiveLoop : DirMode → Bytes → Bytes → Option (Bytes × Bytes)
  | _, _, [] => none
  | .comment (k + 1) b0 b1 depth, buf, _ :: rest =>
    directiveLoop (.comment k b0 b1 depth) buf rest
  | .comment 0 b0 b1 depth, buf, b :: rest =>
    if b0 = 0x2D ∧ b1 = 0x2D ∧ b = 0x3E then directiveLoop (.plain 0 depth) (buf ++ [0x20]) rest
    else directiveLoop (.comment 0 b1 b depth) buf rest
  | .plain inquote depth, buf, b :: rest =>
    if inquote = 0 ∧ b = 0x3E ∧ depth = 0 then some (buf, rest)
    else if b = inquote then directiveLoop (.plain 0 depth) (buf ++ [b]) rest
    else if inquote ≠ 0 then directiveLoop (.plain inquote depth) (buf ++ [b]) rest
    else if b = 0x27 ∨ b = 0x22 then directiveLoop (.plain b depth) (buf ++ [b]) rest
    else if b = 0x3E then directiveLoop (.plain inquote (depth - 1)) (buf ++ [b]) rest
    else if b = 0x3C then
      if [0x21, 0x2D, 0x2D].isPrefixOf rest then directiveLoop (.comment 3 0 0 depth) buf rest
      else directiveLoop (.plain inquote (depth + 1)) (buf ++ [b]) rest
    else directiveLoop (.plain inquote depth) (buf ++ [b]) rest

/-- Go `strings.Index(s, pat)` for a non-empty pattern: the offset of the first
occurrence. -/
def stringsIndex (pat : Bytes) : Bytes → Option Nat
  | [] => none
  | b :: rest =>
    if pat.isPrefixOf (b :: rest) then some 0
    else (stringsIndex pat rest).map (· + 1)

/-- Go `xml.procInst(param, s)`: the value of the pseudo attribute `param` of an
XML declaration, or the empty string.  `fuel` bounds the iterations of the
search loop. -/
def procInstParam (param : Bytes) (s : Bytes) : Nat → Nat → Bytes
  | 0, _ => []
  | fuel + 1, i =>
    let p := param ++ [0x3D]
    let lenp := p.length
    if i < s.length then
      let sub := s.drop i
      match stringsIndex p sub with
      | none => []
      | some k =>
        if lenp + k ≥ sub.length then []
        else
          let c := sub.getD (lenp + k) 0
          let i' := i + lenp + k + 1
          if c = 0x27 ∨ c = 0x22 then
            let tail := s.drop i'
            if c ∈ tail then tail.takeWhile (· ≠ c) else []
          else procInstParam param s fuel i'
    else []

/-- Go `xml.procInst`. -/
def procInst (param s : Bytes) : Bytes := procInstParam param s (s.length + 1) 0

/-- The decoder: the input not yet read and, after a self-closing element, the
name of the end element still to be returned (`needClose`, `toClose`). -/
structure Decoder where
  input : Bytes
  toClose : Option Name
  deriving Repr

/-- The outcome of `RawToken`: a token and the decoder after it, the end of the
input (`io.EOF`), or a syntax error. -/
inductive RawResult where
  | tok (t : Token) (d : Decoder)
  | eof
  | err
  deriving Repr

/-- Go `Decoder.rawToken` in strict mode, with the pass-through charset reader
etree installs. -/
def rawToken (u : NameTables) (d : Decoder) : RawResult :=
  match d.toClose with
  | some nm => .tok (.EndElement nm) { d with toClose := none }
  | none =>
    match d.input with
    | [] => .eof
    | b :: rest =>
      if b ≠ 0x3C then
        match text none false (b :: rest) with
        | none => .err
        | some (data, rest') => .tok (.CharData data) { input := rest', toClose := none }
      else
        match rest with
        | [] => .err
        | 0x2F :: rest1 =>
          match nsname u rest1 with
          | none => .err
          | some (nm, rest2) =>
            match space rest2 with
            | 0x3E :: rest3 => .tok (.EndElement nm) { input := rest3, toClose := none }
            | _ => .err
        | 0x3F :: rest1 =>
          match name u rest1 with
          | none => .err
          | some (target, rest2) =>
            match procInstLoop 0 [] (space rest2) with
            | none => .err
            | some (data, rest3) =>
              let ver := procInst (bytesOf "version") data
              if target = bytesOf "xml" ∧ ver ≠ [] ∧ ver ≠ bytesOf "1.0" then .err
              else .tok (.ProcInst target data) { input := rest3, toClose := none }
        | 0x21 :: rest1 =>
          match rest1 with
          | [] => .err
          | 0x2D :: rest2 =>
            match rest2 with
            | 0x2D :: rest3 =>
              match commentLoop 0 0 [] rest3 with
              | none => .err
              | some (data, rest4) => .tok (.Comment data) { input := rest4, toClose := none }
            | _ => .err
          | 0x5B :: rest2 =>
            match rest2 with
            | 0x43 :: 0x44 :: 0x41 :: 0x54 :: 0x41 :: 0x5B :: rest3 =>
              match text none true rest3 with
              | none => .err
              | some (data, rest4) => .tok (.CharData data) { input := rest4, toClose := none }
            | _ => .err
          | b1 :: rest2 =>
            match directiveLoop (.plain 0 0) [b1] rest2 with
            | none => .err
            | some (data, rest3) => .tok (.Directive data) { input := rest3, toClose := none }
        | _ :: _ =>
          match nsname u rest with
          | none => .err
          | some (nm, rest1) =>
            match attrLoop u (rest1.length + 1) [] rest1 with
            | none => .err
            | some (attr, empty, rest2) =>
              .tok (.StartElement nm attr)
                { input := rest2, toClose := if empty then some nm else none }


/-! ## github.com/beevik/etree: reading a document and selecting in it -/

/-- The etree `Attr`: an attribute of an element. -/
structure EAttr where
  Space : Bytes
  Key : Bytes
  Value : Bytes
  deriving DecidableEq, Repr

/-- The etree `Token`: a child of an element, which is an element (with its
space, tag, attributes and children), character data, a comment, a directive
or a processing instruction. -/
inductive Node where
  | element (space tag : Bytes) (attr : List EAttr) (child : List Node)
  | charData (data : Bytes)
  | comment (data : Bytes)
  | directive (data : Bytes)
  | procInst (target inst : Bytes)
  deriving Repr

/-- The etree `Element`; a `Document` is the element with the empty tag whose
children are the top level tokens. -/
structure Element where
  Space : Bytes
  Tag : Bytes
  Attr : List EAttr
  Child : List Node
  deriving Repr

/-- The attributes etree gives a new element: an attribute whose name was seen
before in the same tag overwrites the value of the earlier one. -/
def addAttrs : List EAttr → List Attr → List EAttr
  | acc, [] => acc
  | acc, a :: rest =>
    if acc.any (fun e => e.Space = a.Name.Space ∧ e.Key = a.Name.Local) then
      addAttrs (acc.map (fun e =>
        if e.Space = a.Name.Space ∧ e.Key = a.Name.Local then { e with Value := a.Value }
        else e)) rest
    else addAttrs (acc ++ [{ Space := a.Name.Space, Key := a.Name.Local, Value := a.Value }]) rest

/-- The loop of etree `Element.readFrom`.  `stack` holds the open elements, the
innermost first and the document last; a child is attached to its parent.  The
outer `none` means the fuel ran out, `some none` that reading failed (a syntax
error of the decoder or `ErrXML`), `some (some doc)` the document read. -/
def readLoop (u : NameTables) : Nat → List Element → Decoder → Option (Option Element)
  | 0, _, _ => none
  | fuel + 1, stack, d =>
    match rawToken u d with
    | .eof =>
      match stack with
      | [doc] => some (some doc)
      | _ => some none
    | .err => some none
    | .tok t d' =>
      match stack with
      | [] => some none
      | top :: below =>
        match t with
        | .StartElement nm attr =>
          readLoop u fuel
            ({ Space := nm.Space, Tag := nm.Local, Attr := addAttrs [] attr, Child := [] }
              :: top :: below) d'
        | .EndElement nm =>
          if top.Tag ≠ nm.Local ∨ top.Space ≠ nm.Space then some none
          else
            match below with
            | [] => readLoop u fuel [] d'
            | parent :: more =>
              readLoop u fuel
                ({ parent with
                    Child := parent.Child ++ [.element top.Space top.Tag top.Attr top.Child] }
                  :: more) d'
        | .CharData data =>
          readLoop u fuel ({ top with Child := top.Child ++ [.charData data] } :: below) d'
        | .Comment data =>
          readLoop u fuel ({ top with Child := top.Child ++ [.comment data] } :: below) d'
        | .Directive data =>
          readLoop u fuel ({ top with Child := top.Child ++ [.directive data] } :: below) d'
        | .ProcInst target inst =>
          readLoop u fuel ({ top with Child := top.Child ++ [.procInst target inst] } :: below) d'

/-- The etree `NewDocument` followed by `Document.ReadFromBytes`: the document
read from the bytes, or `none` when reading returns an error.  Every token
takes at least one byte, except the end of a self-closing element, so twice
the length of the input bounds the number of iterations.  The package imports
etree without a version; this is `readFrom` as in the releases that put no
bound on the nesting of elements.  A release that refuses documents nested
deeper than a fixed bound differs on those documents only; the envelopes of
this package nest two elements deep. -/
def ReadFromBytes (u : NameTables) (data : Bytes) : Option Element :=
  match readLoop u (2 * data.length + 2)
      [{ Space := [], Tag := [], Attr := [], Child := [] }] { input := data, toClose := none } with
  | some r => r
  | none => none

/-- The etree `spaceDecompose`: a `space:key` string split at its first colon. -/
def spaceDecompose (str : Bytes) : Bytes × Bytes :=
  match cutColon str with
  | none => ([], str)
  | some (space, key) => (space, key)

/-- The etree `spaceMatch`: an empty space in the query matches every space. -/
def spaceMatch (a b : Bytes) : Bool :=
  if a = [] then true else a = b

/-- The etree `Element.SelectElement`: the first child element with the tag. -/
def SelectElement (e : Element) (tag : Bytes) : Option Element :=
  let (space, stag) := spaceDecompose tag
  e.Child.findSome? fun
    | .element cspace ctag attr child =>
      if spaceMatch space cspace ∧ stag = ctag then
        some { Space := cspace, Tag := ctag, Attr := attr, Child := child }
      else none
    | _ => none

/-- The etree `Element.SelectAttr`: the first attribute with the key. -/
def SelectAttr (e : Element) (key : Bytes) : Option EAttr :=
  let (space, skey) := spaceDecompose key
  e.Attr.find? fun a => spaceMatch space a.Space ∧ skey = a.Key

/-- The loop of etree `Element.Text`: the character data at the start of the
children are concatenated, comments between them are skipped, and the first
other child ends the text. -/
def textOfChildren : List Node → Bytes
  | [] => []
  | .charData data :: rest => data ++ textOfChildren rest
  | .comment _ :: rest => textOfChildren rest
  | _ :: _ => []

/-- The etree `Element.Text`. -/
def Element.Text (e : Element) : Bytes := textOfChildren e.Child

/-! ## Go `strconv.Atoi` and `fmt` verbs -/

/-- The value of a string of decimal digits, `none` when a byte is not a digit. -/
def parseDigits : Nat → Bytes → Option Nat
  | acc, [] => some acc
  | acc, c :: rest =>
    if 0x30 ≤ c ∧ c ≤ 0x39 then parseDigits (acc * 10 + (c - 0x30)) rest else none

/-- Go `strconv.Atoi` for a 64 bit `int`: an optional sign and at least one
decimal digit, the value within the range of `int`.  `none` is an error. -/
def Atoi (s : Bytes) : Option Int :=
  let neg := s.head? = some 0x2D
  let ds := if s.head? = some 0x2B ∨ s.head? = some 0x2D then s.tail else s
  if ds = [] then none
  else
    match parseDigits 0 ds with
    | none => none
    | some n =>
      if neg then (if n ≤ 2 ^ 63 then some (-(n : Int)) else none)
      else (if n < 2 ^ 63 then some (n : Int) else none)

/-- The decimal digits of a natural number, most significant first, put in
front of `acc`; `fuel` bounds the number of digits. -/
def natDigits : Nat → Nat → Bytes → Bytes
  | 0, _, acc => acc
  | fuel + 1, n, acc =>
    if n < 10 then (0x30 + n) :: acc
    else natDigits fuel (n / 10) ((0x30 + n % 10) :: acc)

/-- Go `%d` of a non-negative integer. -/
def fmtNat (n : Nat) : Bytes := natDigits (n + 1) n []

/-- Go `%d` of an `int`. -/
def fmtInt (i : Int) : Bytes :=
  if i < 0 then 0x2D :: fmtNat i.natAbs else fmtNat i.natAbs

/-! ## message.go: the envelopes -/

/-- message.go, `EventMessage.toXML`: the template with the id (`%d`) and the
four strings (`%s`) put in. -/
def EventMessage.toXML (m : EventMessage) : Bytes :=
  bytesOf "<?xml version=\"1.0\"?>\n" ++
  bytesOf "<event version=\"1\">\n" ++
  bytesOf "  <id>" ++ fmtInt m.ID ++ bytesOf "</id>\n" ++
  bytesOf "  <token>" ++ m.Token ++ bytesOf "</token>\n" ++
  bytesOf "  <catgory>" ++ m.Category ++ bytesOf "</catgory>\n" ++
  bytesOf "  <service>" ++ m.Service ++ bytesOf "</service>\n" ++
  bytesOf "  <params><![CDATA[" ++ m.Params ++ bytesOf "]]></params>\n" ++
  bytesOf "</event>\n"

/-- message.go, `EventResponse.toXML`. -/
def EventResponse.toXML (m : EventResponse) : Bytes :=
  bytesOf "<?xml version=\"1.0\"?>\n" ++
  bytesOf "<response>\n" ++
  bytesOf "  <id>" ++ fmtInt m.ID ++ bytesOf "</id>\n" ++
  bytesOf "  <message><![CDATA[" ++ m.Message ++ bytesOf "]]></message>\n" ++
  bytesOf "</response>\n"

/-- message.go, `decodeEventMessage`. -/
def decodeEventMessage (u : NameTables) (data : Bytes) : Except Error EventMessage :=
  match ReadFromBytes u data with
  | none => .error .ErrInvalidEvent
  | some doc =>
    match SelectElement doc (bytesOf "event") with
    | none => .error .ErrInvalidEvent
    | some root =>
      match SelectAttr root (bytesOf "version") with
      | none => .error .ErrInvalidEvent
      | some xversion =>
        if xversion.Value ≠ bytesOf "1" then .error .ErrInvalidEvent
        else
          match SelectElement root (bytesOf "id") with
          | none => .error .ErrInvalidEvent
          | some xid =>
            match Atoi xid.Text with
            | none => .error .ErrInvalidEvent
            | some id =>
              match SelectElement root (bytesOf "token") with
              | none => .error .ErrInvalidEvent
              | some xtoken =>
                match SelectElement root (bytesOf "catgory") with
                | none => .error .ErrInvalidEvent
                | some xcategory =>
                  match SelectElement root (bytesOf "service") with
                  | none => .error .ErrInvalidEvent
                  | some xservice =>
                    match SelectElement root (bytesOf "params") with
                    | none => .error .ErrInvalidEvent
                    | some xparams =>
                      .ok { ID := id
                            Token := xtoken.Text
                            Category := xcategory.Text
                            Service := xservice.Text
                            Params := xparams.Text }

/-- message.go, `decodeEventResponse`. -/
def decodeEventResponse (u : NameTables) (data : Bytes) : Except Error EventResponse :=
  match ReadFromBytes u data with
  | none => .error .ErrInvalidResponse
  | some doc =>
    match SelectElement doc (bytesOf "response") with
    | none => .error .ErrInvalidResponse
    | some root =>
      match SelectElement root (bytesOf "id") with
      | none => .error .ErrInvalidResponse
      | some xid =>
        match Atoi xid.Text with
        | none => .error .ErrInvalidResponse
        | some id =>
          match SelectElement root (bytesOf "message") with
          | none => .error .ErrInvalidResponse
          | some xmessage => .ok { ID := id, Message := xmessage.Text }

/-! ## config.go: the token of the day -/

/-- config.go, `type Config struct`. -/
structure Config where
  Hosts : List Bytes
  User : Bytes
  Password : Bytes
  UseSSL : Bool
  ExchangeName : Bytes
  NodeName : Bytes
  SecretToken : Bytes

/-- A Go `*time.Location` such as `time.Local`: the offset from UTC, in seconds
east, in force at an instant given in Unix seconds. -/
abbrev Location := Int → Int

/-- Go `Time.abs`: the seconds since the absolute zero year of package time, in
the zone in force at the instant, as a `uint64`. -/
def absSeconds (loc : Location) (unix : Int) : Nat :=
  ((unix + loc unix + 9223372028715321600) % 2 ^ 64).toNat

/-- Go `time.isLeap`. -/
def isLeap (year : Int) : Bool :=
  year % 4 = 0 && (year % 100 ≠ 0 || year % 400 = 0)

/-- Go `time.daysBefore`: the days of a non-leap year before the month with
index `m` (counted from 0). -/
def daysBefore : Nat → Nat
  | 0 => 0
  | 1 => 31
  | 2 => 31 + 28
  | 3 => 31 + 28 + 31
  | 4 => 31 + 28 + 31 + 30
  | 5 => 31 + 28 + 31 + 30 + 31
  | 6 => 31 + 28 + 31 + 30 + 31 + 30
  | 7 => 31 + 28 + 31 + 30 + 31 + 30 + 31
  | 8 => 31 + 28 + 31 + 30 + 31 + 30 + 31 + 31
  | 9 => 31 + 28 + 31 + 30 + 31 + 30 + 31 + 31 + 30
  | 10 => 31 + 28 + 31 + 30 + 31 + 30 + 31 + 31 + 30 + 31
  | 11 => 31 + 28 + 31 + 30 + 31 + 30 + 31 + 31 + 30 + 31 + 30
  | _ => 31 + 28 + 31 + 30 + 31 + 30 + 31 + 31 + 30 + 31 + 30 + 31

/-- The first half of Go `time.absDate`: the year and the day within the year of
a day counted from the absolute zero year, by cutting off 400, 100, 4 and 1
year cycles. -/
def yearDay (days : Nat) : Int × Nat :=
  let n400 := days / 146097
  let d := days - 146097 * n400
  let n := d / 36524
  let n100 := n - n / 4
  let d := d - 36524 * n100
  let n4 := d / 1461
  let d := d - 1461 * n4
  let n := d / 365
  let n1 := n - n / 4
  let d := d - 365 * n1
  ((400 * n400 + 100 * n100 + 4 * n4 + n1 : Nat) + (-292277022399 : Int), d)

/-- The second half of Go `time.absDate`: month and day of the month of a day
within a year. -/
def monthDay (leap : Bool) (yday : Nat) : Nat × Nat :=
  if leap && yday = 31 + 29 - 1 then (2, 29)
  else
    let day := if leap && yday > 31 + 29 - 1 then yday - 1 else yday
    let month := day / 31
    let e := daysBefore (month + 1)
    if day ≥ e then (month + 2, day - e + 1)
    else (month + 1, day - daysBefore month + 1)

/-- Go `time.absDate`: year, month and day of a day counted from the absolute
zero year. -/
def absDate (days : Nat) : Int × Nat × Nat :=
  let (year, yday) := yearDay days
  let (month, day) := monthDay (isLeap year) yday
  (year, month, day)

/-- The day, counted from the absolute zero year, on which an instant falls in
a location. -/
def localDay (loc : Location) (unix : Int) : Nat := absSeconds loc unix / 86400

/-- Go `Time.Date`: year, month and day of an instant in a location. -/
def civilDate (loc : Location) (unix : Int) : Int × Nat × Nat := absDate (localDay loc unix)

/-- Go `%4d` and `%02d`: a number padded on the left to a width. -/
def padLeft (pad : Nat) (width : Nat) (s : Bytes) : Bytes :=
  List.replicate (width - s.length) pad ++ s

/-- The format `%4d-%02d-%02d` of config.go applied to a date. -/
def fmtDate (date : Int × Nat × Nat) : Bytes :=
  padLeft 0x20 4 (fmtInt date.1) ++ [0x2D] ++ padLeft 0x30 2 (fmtNat date.2.1) ++ [0x2D] ++
    padLeft 0x30 2 (fmtNat date.2.2)

/-- One hexadecimal digit in lower case. -/
def hexDigit (n : Nat) : Nat := if n < 10 then 0x30 + n else 0x61 + (n - 10)

/-- Go `%x` of a byte array: two hexadecimal digits a byte. -/
def hexEncode : Bytes → Bytes
  | [] => []
  | b :: rest => hexDigit (b / 16) :: hexDigit (b % 16) :: hexEncode rest

/-- config.go, `Config.generateToken`.  `sha1` is `crypto/sha1.Sum`, `loc` the
local time zone and `now` the reading of `time.Now()` in Unix seconds. -/
def generateToken (sha1 : Bytes → Bytes) (c : Config) (loc : Location) (now : Int)
    (date : Bytes) : Bytes :=
  let dayDur : Int := 24 * 3600
  let dstr :=
    if date = bytesOf "now" then fmtDate (civilDate loc now)
    else if date = bytesOf "prev" then fmtDate (civilDate loc (now - dayDur))
    else if date = bytesOf "next" then fmtDate (civilDate loc (now + dayDur))
    else []
  let tokenStr := c.SecretToken ++ bytesOf " - " ++ dstr
  hexEncode (sha1 tokenStr)

/-- config.go, `Config.validateToken`.  Each round of the loop calls
`generateToken`, which reads the clock: `clock` holds the three readings. -/
def validateToken (sha1 : Bytes → Bytes) (c : Config) (loc : Location) (clock : Int × Int × Int)
    (token : Bytes) : Bool :=
  let dates := [(bytesOf "now", clock.1), (bytesOf "prev", clock.2.1), (bytesOf "next", clock.2.2)]
  dates.any fun (date, now) => token = generateToken sha1 c loc now date


/-- A configuration with the secret `s3cret`. -/
def sampleConfig : Config :=
  { Hosts := [], User := [], Password := [], UseSSL := false, ExchangeName := [],
    NodeName := bytesOf "node", SecretToken := bytesOf "s3cret" }

/-! ## amqp.go: the driver and the broker -/

/-- amqp.go, `type AMQPDriver struct`: the host and the configuration; the
connection and the channel live in the broker's world. -/
structure AMQPDriver where
  host : Bytes
  config : Config

/-- An operation of a driver on its broker connection. -/
inductive NetOp where
  | dial (host : Bytes)
  | close (host : Bytes)
  | declareQueue (host name : Bytes) (rpc : Bool)
  | publish (host exchange key corrId replyTo body : Bytes)
  | consume (host queue : Bytes)
  | queueDelete (host queue : Bytes)
  | ack (host : Bytes)
  deriving DecidableEq, Repr

/-- What the `select` of `AMQPDriver.Call` receives: a message of the reply
queue, or the expiry of the timer. -/
inductive ReplyEvent where
  | reply (corrId body : Bytes)
  | timer
  deriving DecidableEq, Repr

/-- The broker side and the rest of the outside world.  Every answer may depend
on the operations performed so far: whether an operation fails, the name the
broker gives an anonymous queue, the value of `randString()`, the events a
`Call` waits on, and the reading of the clock. -/
structure Net where
  fails : List NetOp → NetOp → Option Error
  queueName : List NetOp → Bytes
  randString : List NetOp → Bytes
  events : List NetOp → List ReplyEvent
  now : List NetOp → Int

/-- The environment of the package: the name tables of the XML decoder, the
digest, the local time zone and the broker. -/
structure Env where
  u : NameTables
  sha1 : Bytes → Bytes
  loc : Location
  net : Net

/-- The mutable state outside a sender or receiver: the package variable
`globalID` and the log of the operations performed on brokers. -/
structure World where
  globalID : Nat
  log : List NetOp

/-- Perform an operation: it is logged, and the broker says whether it failed. -/
def perform (env : Env) (op : NetOp) (w : World) : Option Error × World :=
  (env.net.fails w.log op, { w with log := w.log ++ [op] })

/-- amqp.go, `AMQPDriver.Dial`, on the paths on which it returns.  The operation
`dial` stands for `amqp.Dial(uri)` followed by `conn.Channel()` on the new
connection; the error of the operation is the error `amqp.Dial` returns.  A
broker that accepts the connection and then refuses the channel is not among
the answers of `Net.fails`: there the source calls `d.conn.Close()` while
`d.conn` is still nil on a fresh driver (amqp.go, line 48) and panics instead
of returning the error. -/
def AMQPDriver.Dial (env : Env) (d : AMQPDriver) (w : World) : Option Error × World :=
  perform env (.dial d.host) w

/-- amqp.go, `AMQPDriver.Close`. -/
def AMQPDriver.Close (env : Env) (d : AMQPDriver) (w : World) : Option Error × World :=
  perform env (.close d.host) w

/-- amqp.go, `AMQPDriver.Send`. -/
def AMQPDriver.Send (env : Env) (d : AMQPDriver) (queue msg : Bytes) (w : World) :
    Option Error × World :=
  perform env (.publish d.host d.config.ExchangeName queue [] [] msg) w

/-- The `for { select { ... } }` loop of `AMQPDriver.Call`: the events are taken
in order; the timer ends the wait with `ErrTimeout`, a reply with the
correlation id of the call ends it with its body, any other reply is skipped.
The timer of a call always fires, so a list that ends without the timer stands
for the one with the timer behind its last reply. -/
def awaitReply (corrId : Bytes) : List ReplyEvent → Except Error Bytes
  | [] => .error .ErrTimeout
  | .timer :: _ => .error .ErrTimeout
  | .reply cid body :: rest => if cid = corrId then .ok body else awaitReply corrId rest

/-- amqp.go, `AMQPDriver.Call`; the deferred `QueueDelete` runs on every return
after the reply queue was declared. -/
def AMQPDriver.Call (env : Env) (d : AMQPDriver) (queue msg : Bytes) (_timeout : Nat)
    (w : World) : Except Error Bytes × World :=
  let retQ := env.net.queueName w.log
  match perform env (.declareQueue d.host [] true) w with
  | (some err, w1) => (.error err, w1)
  | (none, w1) =>
    let corrId := env.net.randString w1.log
    match perform env (.publish d.host d.config.ExchangeName queue corrId retQ msg) w1 with
    | (some err, w2) => (.error err, (perform env (.queueDelete d.host retQ) w2).2)
    | (none, w2) =>
      match perform env (.consume d.host retQ) w2 with
      | (some err, w3) => (.error err, (perform env (.queueDelete d.host retQ) w3).2)
      | (none, w3) =>
        (awaitReply corrId (env.net.events w3.log), (perform env (.queueDelete d.host retQ) w3).2)

/-! ## sender.go -/

/-- sender.go, `amqpSender.Ping`. -/
def amqpSender.Ping (env : Env) (s : AMQPDriver) (target : Bytes) (timeout : Nat) (w : World) :
    Bool × World :=
  match createEventMessage w.globalID target [] [] with
  | (g, .error _) => (false, { w with globalID := g })
  | (g, .ok (queue, _)) =>
    match AMQPDriver.Call env s queue (bytesOf "PING") timeout { w with globalID := g } with
    | (.error _, w') => (false, w')
    | (.ok ret, w') => (ret = bytesOf "PONG", w')

/-- sender.go, `amqpSender.Send`. -/
def amqpSender.Send (env : Env) (s : AMQPDriver) (target message : Bytes) (w : World) :
    Option Error × World :=
  let token := generateToken env.sha1 s.config env.loc (env.net.now w.log) (bytesOf "now")
  match createEventMessage w.globalID target token message with
  | (g, .error err) => (some err, { w with globalID := g })
  | (g, .ok (queue, msg)) => AMQPDriver.Send env s queue msg.toXML { w with globalID := g }

/-- sender.go, `amqpSender.Call`. -/
def amqpSender.Call (env : Env) (s : AMQPDriver) (target message : Bytes) (timeout : Nat)
    (w : World) : Except Error Bytes × World :=
  let token := generateToken env.sha1 s.config env.loc (env.net.now w.log) (bytesOf "now")
  match createEventMessage w.globalID target token message with
  | (g, .error err) => (.error err, { w with globalID := g })
  | (g, .ok (queue, msg)) =>
    match AMQPDriver.Call env s queue msg.toXML timeout { w with globalID := g } with
    | (.error err, w') => (.error err, w')
    | (.ok ret, w') =>
      match decodeEventResponse env.u ret with
      | .error err => (.error err, w')
      | .ok resp => (.ok resp.Message, w')

/-- sender.go, `type smartSender struct`. -/
structure smartSender where
  config : Config
  senders : List AMQPDriver

/-- sender.go, `NewSender`. -/
def NewSender (config : Config) : smartSender := { config := config, senders := [] }

/-- The first loop of `smartSender.initializeSenders`: a driver is made and
dialled for each host, and kept when the dial succeeds. -/
def dialHosts (env : Env) (config : Config) : List Bytes → World → List AMQPDriver × World
  | [], w => ([], w)
  | host :: hosts, w =>
    let driver : AMQPDriver := { host := host, config := config }
    match driver.Dial env w with
    | (none, w1) =>
      let (drivers, w2) := dialHosts env config hosts w1
      (driver :: drivers, w2)
    | (some _, w1) => dialHosts env config hosts w1

/-- sender.go, `smartSender.initializeSenders`. -/
def smartSender.initializeSenders (env : Env) (s : smartSender) (w : World) :
    smartSender × World :=
  let (drivers, w1) := dialHosts env s.config s.config.Hosts w
  ({ s with senders := drivers }, w1)

/-- The `for _, sender := range s.senders` loop of `selectSender` with `doPing`:
the first sender whose ping of three seconds succeeds. -/
def pingLoop (env : Env) (target : Bytes) : List AMQPDriver → World → Option AMQPDriver × World
  | [], w => (none, w)
  | sender :: rest, w =>
    match amqpSender.Ping env sender target 3 w with
    | (true, w1) => (some sender, w1)
    | (false, w1) => pingLoop env target rest w1

/-- The first statement of `selectSender`: the senders are initialized when there
are none. -/
def smartSender.ready (env : Env) (s : smartSender) (w : World) : smartSender × World :=
  if s.senders.length = 0 then s.initializeSenders env w else (s, w)

/-- sender.go, `smartSender.selectSender`; `none` is the `nil` sender. -/
def smartSender.selectSender (env : Env) (s : smartSender) (target : Bytes) (doPing : Bool)
    (w : World) : Option AMQPDriver × smartSender × World :=
  let s1 := (s.ready env w).1
  let w1 := (s.ready env w).2
  if doPing then
    ((pingLoop env target s1.senders w1).1, s1, (pingLoop env target s1.senders w1).2)
  else
    (s1.senders.head?, s1, w1)

/-- sender.go, `smartSender.Ping`. -/
def smartSender.Ping (env : Env) (s : smartSender) (target : Bytes) (timeout : Nat) (w : World) :
    Bool × smartSender × World :=
  match s.selectSender env target false w with
  | (none, s1, w1) => (false, s1, w1)
  | (some sender, s1, w1) =>
    let (r, w2) := amqpSender.Ping env sender target timeout w1
    (r, s1, w2)

/-- sender.go, `smartSender.Send`. -/
def smartSender.Send (env : Env) (s : smartSender) (target message : Bytes) (w : World) :
    Option Error × smartSender × World :=
  match s.selectSender env target true w with
  | (none, s1, w1) => (some .ErrCannotConnectToServer, s1, w1)
  | (some sender, s1, w1) =>
    let (r, w2) := amqpSender.Send env sender target message w1
    (r, s1, w2)

/-- sender.go, `smartSender.Call`. -/
def smartSender.Call (env : Env) (s : smartSender) (target message : Bytes) (timeout : Nat)
    (w : World) : Except Error Bytes × smartSender × World :=
  match s.selectSender env target true w with
  | (none, s1, w1) => (.error .ErrCannotConnectToServer, s1, w1)
  | (some sender, s1, w1) =>
    let (r, w2) := amqpSender.Call env sender target message timeout w1
    (r, s1, w2)

/-! ## service.go -/

/-- service.go, `MessageType`. -/
def MessageType : Int := 1

/-- service.go, `RPCType`. -/
def RPCType : Int := 2

/-- The fields of `amqp.Delivery` the package reads. -/
structure Delivery where
  Body : Bytes
  ReplyTo : Bytes
  CorrelationId : Bytes
  deriving DecidableEq, Repr

/-- service.go, `type amqpRequest struct`. -/
structure amqpRequest where
  driver : AMQPDriver
  msg : Bytes

/-- service.go, `amqpRequest.GetMessage`. -/
def amqpRequest.GetMessage (r : amqpRequest) : Bytes := r.msg

/-- service.go, `amqpRequest.GetSender`. -/
def amqpRequest.GetSender (r : amqpRequest) : smartSender := NewSender r.driver.config

/-- service.go, `type amqpResponse struct`. -/
structure amqpResponse where
  driver : AMQPDriver
  delivery : Delivery
  event : EventMessage
  sended : Bool

/-- service.go, `amqpResponse.Send`. -/
def amqpResponse.Send (env : Env) (r : amqpResponse) (msg : Bytes) (w : World) :
    Option Error × amqpResponse × World :=
  if r.sended then (some .ErrAlreadySend, r, w)
  else
    let replyMsg := createEventResponse r.event msg
    match perform env
        (.publish r.driver.host [] r.delivery.ReplyTo r.delivery.CorrelationId [] replyMsg.toXML)
        w with
    | (none, w1) => (none, { r with sended := true }, w1)
    | (some err, w1) => (some err, r, w1)

/-- service.go, `amqpResponse.SendString`. -/
def amqpResponse.SendString (env : Env) (r : amqpResponse) (msg : Bytes) (w : World) :
    Option Error × amqpResponse × World :=
  r.Send env msg w

/-- A call on a `Response` handle. -/
inductive ResponseCall where
  | Send (msg : Bytes)
  | SendString (msg : Bytes)

/-- One call on a response handle. -/
def amqpResponse.call (env : Env) (r : amqpResponse) (c : ResponseCall) (w : World) :
    Option Error × amqpResponse × World :=
  match c with
  | .Send msg => r.Send env msg w
  | .SendString msg => r.SendString env msg w

/-- A sequence of calls on a response handle, in order: the errors returned, and
the handle and the world at the end. -/
def amqpResponse.calls (env : Env) :
    List ResponseCall → amqpResponse → World → List (Option Error) × amqpResponse × World
  | [], r, w => ([], r, w)
  | c :: cs, r, w =>
    let (e, r1, w1) := r.call env c w
    let (es, r2, w2) := amqpResponse.calls env cs r1 w1
    (e :: es, r2, w2)

/-! ## worker.go -/

/-- worker.go, `type job struct`; `Type_` is the field `Type`. -/
structure job where
  Type_ : Int
  Driver : AMQPDriver
  Message : Delivery
  Event : EventMessage

/-- What a handler leaves behind: whether it panicked, its own state and the
world. -/
structure HandlerResult (σ : Type) where
  panicked : Bool
  state : σ
  world : World

/-- service.go, `type Service interface`, for a service with a state of type
`σ`.  A handler runs to its end or to a panic; it may use the request, the
response handle and the world. -/
structure Service (σ : Type) where
  IsBackground : σ → Bool
  OnMessage : amqpRequest → σ → World → HandlerResult σ
  OnCall : amqpRequest → amqpResponse → σ → World → HandlerResult σ

/-- service.go, `SimpleService`: the state is the field `Background`. -/
def SimpleService (env : Env) : Service Bool :=
  { IsBackground := fun background => background
    OnMessage := fun _ background w => { panicked := false, state := background, world := w }
    OnCall := fun _ resp background w =>
      { panicked := false, state := background
        world := (resp.SendString env (bytesOf "0") w).2.2 } }

/-- worker.go, `type worker struct`; the queue is the list of jobs given to `Run`. -/
structure worker (σ : Type) where
  name : Bytes
  service : Service σ

/-- worker.go, `newWorker`. -/
def newWorker {σ : Type} (name : Bytes) (srv : Service σ) : worker σ :=
  { name := name, service := srv }

/-- A call of a handler by the worker. -/
inductive HandlerCall where
  | OnMessage (req : amqpRequest)
  | OnCall (req : amqpRequest) (resp : amqpResponse)

/-- A handler call the worker made, and whether it ended in a panic that
`processMessage` recovered. -/
structure Invocation where
  call : HandlerCall
  recovered : Bool

/-- The state a worker's task runs in: the state of the service, the world and
the handler calls made so far. -/
structure WorkerState (σ : Type) where
  user : σ
  world : World
  trace : List Invocation

/-- worker.go, `worker.processMessage`: the deferred `recover` turns a panic
of the handler into a normal return. -/
def worker.processMessage {σ : Type} (w : worker σ) (jobj : job) (st : WorkerState σ) :
    WorkerState σ :=
  let req : amqpRequest := { driver := jobj.Driver, msg := jobj.Event.Params }
  if jobj.Type_ = MessageType then
    let r := w.service.OnMessage req st.user st.world
    { user := r.state, world := r.world
      trace := st.trace ++ [{ call := .OnMessage req, recovered := r.panicked }] }
  else if jobj.Type_ = RPCType then
    let resp : amqpResponse :=
      { driver := jobj.Driver, delivery := jobj.Message, event := jobj.Event, sended := false }
    let r := w.service.OnCall req resp st.user st.world
    { user := r.state, world := r.world
      trace := st.trace ++ [{ call := .OnCall req resp, recovered := r.panicked }] }
  else st

/-- worker.go, `worker.Run`: the jobs of the queue are processed in order. -/
def worker.Run {σ : Type} (w : worker σ) (queue : List job) (st : WorkerState σ) :
    WorkerState σ :=
  queue.foldl (fun st jobj => w.processMessage jobj st) st

/-! ## server.go -/

/-- server.go, `type Server struct`: the configuration and the map of workers. -/
structure Server (σ : Type) where
  config : Config
  workers : Bytes → Option (worker σ)

/-- server.go, `NewServer`. -/
def NewServer (σ : Type) (config : Config) : Server σ :=
  { config := config, workers := fun _ => none }

/-- The key of the worker map: `fmt.Sprintf("%s.%s", a, b)`. -/
def workerKey (a b : Bytes) : Bytes := a ++ bytesOf "." ++ b

/-- server.go, `Server.RegisterService`. -/
def Server.RegisterService {σ : Type} (s : Server σ) (module service : Bytes)
    (instance_ : Service σ) : Server σ :=
  let key := workerKey module service
  { s with workers := fun k => if k = key then some (newWorker key instance_) else s.workers k }

/-- server.go, `Server.selectWorker`. -/
def Server.selectWorker {σ : Type} (s : Server σ) (event : EventMessage) :
    Except Error (worker σ) :=
  match s.workers (workerKey event.Category event.Service) with
  | none => .error .ErrServiceNotFound
  | some w => .ok w

/-- server.go, `type receiver struct`. -/
structure receiver (σ : Type) where
  driver : AMQPDriver
  server : Server σ

/-- A delivery as it reaches `receiveMessages`, with the three readings of the
clock `validateToken` makes while it is processed. -/
structure Arrival where
  msg : Delivery
  clock : Int × Int × Int

/-- The state a receiver's task runs in: the world, and the jobs pushed so far,
each with the key under which its worker is registered. -/
structure ReceiverState where
  world : World
  pushed : List (Bytes × job)

/-- The body of `receiver.onCall` and `receiver.onMessage`, which differ in the
type of the job only. -/
def receiver.dispatch {σ : Type} (env : Env) (r : receiver σ) (jobType : Int) (a : Arrival)
    (st : ReceiverState) : Option Error × ReceiverState :=
  match decodeEventMessage env.u a.msg.Body with
  | .error err => (some err, st)
  | .ok event =>
    if !validateToken env.sha1 r.server.config env.loc a.clock event.Token then
      (some .ErrInvalidToken, st)
    else
      match r.server.selectWorker event with
      | .error err => (some err, st)
      | .ok _ =>
        (none, { st with
          pushed := st.pushed ++
            [(workerKey event.Category event.Service,
              { Type_ := jobType, Driver := r.driver, Message := a.msg, Event := event })] })

/-- server.go, `receiver.onCall`. -/
def receiver.onCall {σ : Type} (env : Env) (r : receiver σ) (a : Arrival) (st : ReceiverState) :
    Option Error × ReceiverState :=
  r.dispatch env RPCType a st

/-- server.go, `receiver.onMessage`. -/
def receiver.onMessage {σ : Type} (env : Env) (r : receiver σ) (a : Arrival)
    (st : ReceiverState) : Option Error × ReceiverState :=
  r.dispatch env MessageType a st

/-- server.go, `receiver.onPing`. -/
def receiver.onPing {σ : Type} (env : Env) (r : receiver σ) (msg : Delivery)
    (st : ReceiverState) : Option Error × ReceiverState :=
  let (err, w) := perform env
    (.publish r.driver.host [] msg.ReplyTo msg.CorrelationId [] (bytesOf "PONG")) st.world
  (err, { st with world := w })

/-- The test `err == ErrServiceNotFound || err == ErrInvalidEvent || err ==
ErrInvalidToken` of `receiveMessages`: the errors that are logged only. -/
def loggedOnly (err : Error) : Bool :=
  err = .ErrServiceNotFound || err = .ErrInvalidEvent || err = .ErrInvalidToken

/-- The `for msg := range queue` loop of `receiver.receiveMessages`. -/
def receiver.receiveLoop {σ : Type} (env : Env) (r : receiver σ) :
    List Arrival → ReceiverState → Option Error × ReceiverState
  | [], st => (none, st)
  | a :: rest, st =>
    let st1 := { st with world := (perform env (.ack r.driver.host) st.world).2 }
    if a.msg.ReplyTo ≠ [] then
      if a.msg.Body = bytesOf "PING" then
        match r.onPing env a.msg st1 with
        | (some err, st2) => (some err, st2)
        | (none, st2) => receiver.receiveLoop env r rest st2
      else
        match r.onCall env a st1 with
        | (some err, st2) =>
          if loggedOnly err then receiver.receiveLoop env r rest st2 else (some err, st2)
        | (none, st2) => receiver.receiveLoop env r rest st2
    else
      match r.onMessage env a st1 with
      | (some err, st2) =>
        if loggedOnly err then receiver.receiveLoop env r rest st2 else (some err, st2)
      | (none, st2) => receiver.receiveLoop env r rest st2

/-- server.go, `receiver.receiveMessages`: `arrivals` are the deliveries of the
consumed queue until it is closed. -/
def receiver.receiveMessages {σ : Type} (env : Env) (r : receiver σ) (arrivals : List Arrival)
    (st : ReceiverState) : Option Error × ReceiverState :=
  match perform env (.consume r.driver.host r.driver.config.NodeName) st.world with
  | (some err, w) => (some err, { st with world := w })
  | (none, w) => r.receiveLoop env arrivals { st with world := w }

/-- A delivery that is a ping probe: it has a reply address and the body `PING`. -/
def Arrival.isPing (a : Arrival) : Bool := a.msg.ReplyTo ≠ [] && a.msg.Body = bytesOf "PING"

/-- The job the specification has the receiver push for a delivery, and the key of
its worker: none for a ping probe; otherwise a job exactly when decoding
succeeds, the token validates and a worker is registered under
`category.service`, of kind RPC when the delivery has a reply address and
Message otherwise. -/
def specPushedJob {σ : Type} (env : Env) (r : receiver σ) (a : Arrival) : Option (Bytes × job) :=
  if a.isPing then none
  else
    match decodeEventMessage env.u a.msg.Body with
    | .error _ => none
    | .ok event =>
      if validateToken env.sha1 r.server.config env.loc a.clock event.Token = true ∧
          (r.server.workers (workerKey event.Category event.Service)).isSome then
        some (workerKey event.Category event.Service,
          { Type_ := if a.msg.ReplyTo ≠ [] then RPCType else MessageType
            Driver := r.driver, Message := a.msg, Event := event })
      else none

/-- The handler call the specification has the worker make for a job. -/
def specHandlerCall (jobj : job) : Option HandlerCall :=
  if jobj.Type_ = MessageType then
    some (.OnMessage { driver := jobj.Driver, msg := jobj.Event.Params })
  else if jobj.Type_ = RPCType then
    some (.OnCall { driver := jobj.Driver, msg := jobj.Event.Params }
      { driver := jobj.Driver, delivery := jobj.Message, event := jobj.Event, sended := false })
  else none

/-- The handler of the service `srv` that a handler call invokes, with the
state and the world the handler starts in. -/
def HandlerCall.invoke {σ : Type} (srv : Service σ) : HandlerCall → σ → World → HandlerResult σ
  | .OnMessage req, s, w => srv.OnMessage req s w
  | .OnCall req resp, s, w => srv.OnCall req resp s w

/-- What the specification has a worker do with the handler calls of its jobs:
each handler is invoked once, in order and one at a time, that is from the state
and the world the handler before it left, whether that one returned or
panicked; the call is recorded with whether it ended in a panic. -/
def specRun {σ : Type} (srv : Service σ) : List HandlerCall → WorkerState σ → WorkerState σ
  | [], st => st
  | c :: calls, st =>
    specRun srv calls
      { user := (c.invoke srv st.user st.world).state
        world := (c.invoke srv st.user st.world).world
        trace := st.trace ++ [{ call := c, recovered := (c.invoke srv st.user st.world).panicked }] }

/-! ## Support for the statements about the smart sender -/

/-- The world after the senders were pinged in order for three seconds each. -/
def afterPings (env : Env) (target : Bytes) : List AMQPDriver → World → World
  | [], w => w
  | h :: rest, w => afterPings env target rest (amqpSender.Ping env h target 3 w).2

/-- Each of the senders, pinged in order for three seconds, does not answer. -/
def pingsFail (env : Env) (target : Bytes) : List AMQPDriver → World → Prop
  | [], _ => True
  | h :: rest, w =>
    (amqpSender.Ping env h target 3 w).1 = false ∧
      pingsFail env target rest (amqpSender.Ping env h target 3 w).2

/-- The host and the body of a publish operation that carries a message other
than a ping probe. -/
def sentMessage : NetOp → Option (Bytes × Bytes)
  | .publish host _ _ _ _ body => if body = bytesOf "PING" then none else some (host, body)
  | _ => none

/-- The log of `w'` is the log of `w` followed by operations that all satisfy `P`. -/
def LogGrows (P : NetOp → Prop) (w w' : World) : Prop :=
  ∃ ops, w'.log = w.log ++ ops ∧ ∀ op ∈ ops, P op

/-- An operation that carries no message other than a ping probe. -/
def NoMessage (op : NetOp) : Prop := sentMessage op = none

/-- An operation that carries no message other than a ping probe to a host
other than `host`. -/
def MessageOnlyTo (host : Bytes) (op : NetOp) : Prop :=
  ∀ x, sentMessage op = some x → x.1 = host

/-- The host and the body of the publish operation logged last. -/
def lastPublished (log : List NetOp) : Option (Bytes × Bytes) :=
  log.reverse.findSome? fun
    | .publish host _ _ _ _ body => some (host, body)
    | _ => none

/-- A broker world with three hosts of which only `h2` has a consumer: every
operation succeeds; a ping published to `h2` is answered with `PONG`, any other
message published to `h2` with a stray reply and then the response `30`; what is
published to another host is never answered. -/
def threeHostNet : Net :=
  { fails := fun _ _ => none
    queueName := fun _ => bytesOf "amq.gen-1"
    randString := fun _ => bytesOf "c0ffee"
    events := fun log =>
      match lastPublished log with
      | some (host, body) =>
        if host = bytesOf "h2" then
          if body = bytesOf "PING" then [.reply (bytesOf "c0ffee") (bytesOf "PONG")]
          else [.reply (bytesOf "beef") (bytesOf "stray"),
                .reply (bytesOf "c0ffee") (EventResponse.toXML ⟨1, bytesOf "30"⟩)]
        else [.timer]
      | none => [.timer]
    now := fun _ => 1730635200 }

/-- The environment of the three host example: UTC, the identity for a digest. -/
def threeHostEnv : Env :=
  { u := { first := fun _ => false, second := fun _ => false }
    sha1 := id
    loc := fun _ => 0
    net := threeHostNet }

/-- The configuration of the three host example. -/
def threeHostConfig : Config :=
  { sampleConfig with Hosts := [bytesOf "h1", bytesOf "h2", bytesOf "h3"] }

/-- The driver of a host of the three host example. -/
def threeHostDriver (host : String) : AMQPDriver :=
  { host := bytesOf host, config := threeHostConfig }

/-- A service that counts its calls and panics on the message `boom`. -/
def panicOnBoom : Service Nat :=
  { IsBackground := fun _ => false
    OnMessage := fun req n w =>
      { panicked := req.GetMessage = bytesOf "boom", state := n + 1, world := w }
    OnCall := fun req _ n w =>
      { panicked := req.GetMessage = bytesOf "boom", state := n + 1, world := w } }

/-- A one-way job with the payload `params`. -/
def sampleJob (params : String) : job :=
  { Type_ := MessageType, Driver := threeHostDriver "h1"
    Message := { Body := [], ReplyTo := [], CorrelationId := [] }
    Event := { ID := 1, Token := [], Category := bytesOf "math", Service := bytesOf "sum"
               Params := bytesOf params } }

/-- A receiver of the node `node` with the service `math.sum` registered. -/
def sampleReceiver : receiver Nat :=
  { driver := threeHostDriver "h1"
    server := (NewServer Nat sampleConfig).RegisterService (bytesOf "math") (bytesOf "sum")
      panicOnBoom }

/-- The envelope of a request for `category.service` with the token of
2024-11-03, arriving on that day with or without a reply address. -/
def sampleArrival (category service replyTo : String) : Arrival :=
  { msg :=
      { Body := EventMessage.toXML
          { ID := 1
            Token := generateToken id sampleConfig (fun _ => 0) 1730635200 (bytesOf "now")
            Category := bytesOf category, Service := bytesOf service
            Params := bytesOf "[10,20]" }
        ReplyTo := bytesOf replyTo, CorrelationId := bytesOf "c0ffee" }
    clock := (1730635200, 1730635200, 1730635200) }

/-- Four deliveries: an RPC for `math.sum`, a body that is no envelope, an RPC
for the unregistered `math.mul`, and a one-way message for `math.sum`. -/
def sampleArrivals : List Arrival :=
  [sampleArrival "math" "sum" "amq.gen-1",
   { msg := { Body := bytesOf "hello", ReplyTo := [], CorrelationId := [] }
     clock := (1730635200, 1730635200, 1730635200) },
   sampleArrival "math" "mul" "amq.gen-1",
   sampleArrival "math" "sum" ""]

/-! ## Support for the statements about `Call` and the worker's services -/

/-- A reply that `AMQPDriver.Call` skips when it waits for the correlation id
`corrId`: a reply with another correlation id.  The timer is not skipped. -/
def ReplyEvent.skipped (corrId : Bytes) : ReplyEvent → Bool
  | .reply cid _ => decide (cid ≠ corrId)
  | .timer => false

/-- The name the broker gives the reply queue of a `Call` made in the world `w`. -/
def replyQueueOf (env : Env) (w : World) : Bytes := env.net.queueName w.log

/-- The correlation id `randString()` gives a `Call` of the driver `d` made in
the world `w`: it is drawn after the reply queue was declared. -/
def corrIdOf (env : Env) (d : AMQPDriver) (w : World) : Bytes :=
  env.net.randString (w.log ++ [.declareQueue d.host [] true])

/-- The operations of a `Call` of `msg` to `queue` up to the wait for the reply:
the reply queue is declared, the request is published with the correlation id
and the reply queue, and the reply queue is consumed. -/
def callOps (env : Env) (d : AMQPDriver) (queue msg : Bytes) (w : World) : List NetOp :=
  [.declareQueue d.host [] true,
   .publish d.host d.config.ExchangeName queue (corrIdOf env d w) (replyQueueOf env w) msg,
   .consume d.host (replyQueueOf env w)]

/-- The three operations of `callOps` all succeed. -/
def SetupSucceeds (env : Env) (d : AMQPDriver) (queue msg : Bytes) (w : World) : Prop :=
  env.net.fails w.log (.declareQueue d.host [] true) = none ∧
  env.net.fails (w.log ++ [.declareQueue d.host [] true])
    (.publish d.host d.config.ExchangeName queue (corrIdOf env d w) (replyQueueOf env w) msg)
      = none ∧
  env.net.fails (w.log ++ (callOps env d queue msg w).take 2)
    (.consume d.host (replyQueueOf env w)) = none

/-- What the reply queue of a `Call` of `msg` to `queue` delivers. -/
def replyEvents (env : Env) (d : AMQPDriver) (queue msg : Bytes) (w : World) :
    List ReplyEvent :=
  env.net.events (w.log ++ callOps env d queue msg w)

/-- The service `srv` with `IsBackground()` returning `background`. -/
def Service.withBackground {σ : Type} (srv : Service σ) (background : Bool) : Service σ :=
  { srv with IsBackground := fun _ => background }

/-- A service that counts the handler calls it has seen; both handlers take the
count they find and leave it one higher. -/
def countingService : Service Nat :=
  { IsBackground := fun _ => false
    OnMessage := fun _ n w => { panicked := false, state := n + 1, world := w }
    OnCall := fun _ resp n w =>
      { panicked := false, state := n + 1
        world := (resp.Send threeHostEnv (fmtNat n) w).2.2 } }

/-- An RPC job with the payload `params`, to be answered on `amq.gen-1`. -/
def sampleRPCJob (params : String) : job :=
  { Type_ := RPCType, Driver := threeHostDriver "h1"
    Message := { Body := [], ReplyTo := bytesOf "amq.gen-1", CorrelationId := bytesOf "c0ffee" }
    Event := { ID := 1, Token := [], Category := bytesOf "math", Service := bytesOf "sum"
               Params := bytesOf params } }

/-! ## Support for the round trip proofs -/

/-- Scanning the bytes after the two bytes `b0`, `b1` never completes `]]>`. -/
def noCDEnd : Nat → Nat → Bytes → Bool
  | _, _, [] => true
  | b0, b1, b :: rest => !(b0 = 0x5D ∧ b1 = 0x5D ∧ b = 0x3E) && noCDEnd b1 b rest

/-- Text that passes through an XML element unchanged: XML characters in UTF-8
with no `<`, no `&`, no carriage return and no `]]>`. -/
def PlainText (s : Bytes) : Prop :=
  validChars s = true ∧ 0x3C ∉ s ∧ 0x26 ∉ s ∧ 0x0D ∉ s ∧ ¬ bytesOf "]]>" <:+: s

/-- Text that passes through a CDATA section unchanged: XML characters in UTF-8
with no carriage return and no `]]>`. -/
def CDataText (s : Bytes) : Prop :=
  validChars s = true ∧ 0x0D ∉ s ∧ ¬ bytesOf "]]>" <:+: s

/-- The children etree gives an element with the text `s`: none for the empty
text, else one character data token. -/
def txt (s : Bytes) : List Node := if s = [] then [] else [.charData s]

/-- The read loop, started with the open elements `stack` and the decoder `d`,
ends with the result `r` within `n` iterations. -/
def ReadsIn (u : NameTables) (n : Nat) (stack : List Element) (d : Decoder)
    (r : Option Element) : Prop :=
  ∃ f, f ≤ n ∧ readLoop u f stack d = some r

/-- An element without attributes, still open or closed, with its children. -/
def openElem (tag : String) (child : List Node) : Element :=
  { Space := [], Tag := bytesOf tag, Attr := [], Child := child }

/-- The token of a closed element without attributes that holds the text `s`. -/
def leaf (tag : String) (s : Bytes) : Node := .element [] (bytesOf tag) [] (txt s)

/-- The character data between the fields of an envelope: a newline and two blanks. -/
def indent : Node := .charData (bytesOf "\n  ")

/-- The document after the XML declaration and the newline behind it. -/
def docHead : Element :=
  { Space := [], Tag := [], Attr := [],
    Child := [.procInst (bytesOf "xml") (bytesOf "version=\"1.0\""), .charData (bytesOf "\n")] }

/-- The `event` element with its version attribute and the children `child`. -/
def eventFrame (child : List Node) : Element :=
  { Space := [], Tag := bytesOf "event", Attr := [⟨[], bytesOf "version", bytesOf "1"⟩],
    Child := child }

/-- The `response` element with the children `child`. -/
def responseFrame (child : List Node) : Element :=
  { Space := [], Tag := bytesOf "response", Attr := [], Child := child }

/-- The document etree reads from the envelope of an event. -/
def eventDoc (m : EventMessage) : Element :=
  { docHead with
    Child := docHead.Child ++
      [.element [] (bytesOf "event") [⟨[], bytesOf "version", bytesOf "1"⟩]
        [indent, leaf "id" (fmtInt m.ID), indent, leaf "token" m.Token, indent,
         leaf "catgory" m.Category, indent, leaf "service" m.Service, indent,
         .element [] (bytesOf "params") [] [.charData m.Params], .charData (bytesOf "\n")],
       .charData (bytesOf "\n")] }

/-- The document etree reads from the envelope of a response. -/
def responseDoc (m : EventResponse) : Element :=
  { docHead with
    Child := docHead.Child ++
      [.element [] (bytesOf "response") []
        [indent, leaf "id" (fmtInt m.ID), indent,
         .element [] (bytesOf "message") [] [.charData m.Message], .charData (bytesOf "\n")],
       .charData (bytesOf "\n")] }

/-! # Theorems -/

/-! ## Address parsing -/

theorem stringsSplit_ne_nil (sep : Nat) (s : Bytes) : stringsSplit sep s ≠ [] := by
  cases s with
  | nil => simp [stringsSplit]
  | cons b rest =>
    simp only [stringsSplit]
    split
    · simp
    · split <;> simp

theorem stringsSplit_cons_sep (sep : Nat) (rest : Bytes) :
    stringsSplit sep (sep :: rest) = [] :: stringsSplit sep rest := by
  simp [stringsSplit]

theorem stringsSplit_append_sep (sep : Nat) (seg rest : Bytes) (h : sep ∉ seg) :
    stringsSplit sep (seg ++ sep :: rest) = seg :: stringsSplit sep rest := by
  induction seg with
  | nil => simp [stringsSplit]
  | cons b seg ih =>
    have hb : b ≠ sep := fun e => h (by simp [e])
    have hs : sep ∉ seg := fun e => h (by simp [e])
    simp [stringsSplit, hb, ih hs]

theorem stringsSplit_no_sep (sep : Nat) (seg : Bytes) (h : sep ∉ seg) :
    stringsSplit sep seg = [seg] := by
  induction seg with
  | nil => simp [stringsSplit]
  | cons b seg ih =>
    have hb : b ≠ sep := fun e => h (by simp [e])
    have hs : sep ∉ seg := fun e => h (by simp [e])
    simp [stringsSplit, hb, ih hs]

theorem stringsSplit_length (sep : Nat) (s : Bytes) :
    (stringsSplit sep s).length = s.count sep + 1 := by
  induction s with
  | nil => simp [stringsSplit]
  | cons b rest ih =>
    by_cases hb : b = sep
    · subst hb
      simp [stringsSplit, ih]
    · have hne := stringsSplit_ne_nil sep rest
      simp only [stringsSplit, hb, if_false]
      cases hsp : stringsSplit sep rest with
      | nil => exact absurd hsp hne
      | cons seg segs =>
        rw [hsp] at ih
        simp only [List.length_cons] at ih ⊢
        rw [List.count_cons_of_ne (Ne.symm hb)]
        exact ih

theorem createEventMessage_error_iff (g : Nat) (target token msg : Bytes) :
    (createEventMessage g target token msg).2 = .error .ErrInvalidTarget ↔
      (stringsSplit dot target).length ≠ 3 := by
  unfold createEventMessage
  by_cases h : (stringsSplit dot target).length ≠ 3
  · simp [h]
  · simp [h]

theorem stringsSplit_three (n c s : Bytes) (hn : dot ∉ n) (hc : dot ∉ c) (hs : dot ∉ s) :
    stringsSplit dot (n ++ dot :: (c ++ dot :: s)) = [n, c, s] := by
  rw [stringsSplit_append_sep dot n _ hn, stringsSplit_append_sep dot c _ hc,
    stringsSplit_no_sep dot s hs]

/-- C2. Address parsing: `createEventMessage` fails with `ErrInvalidTarget`, leaving the
counter alone, when splitting the target on `.` does not give 3 segments, and succeeds
otherwise; on a target `n.c.s` it returns the routing key `n` and a message with category
`c`, service `s`, the given token and the given payload; `a.b`, `a.b.c.d` and the empty
target fail. -/
theorem createEventMessage_address_parsing (globalID : Nat) (target token msg : Bytes) :
    ((stringsSplit dot target).length ≠ 3 →
        createEventMessage globalID target token msg = (globalID, .error .ErrInvalidTarget)) ∧
    ((stringsSplit dot target).length = 3 →
        ∃ q m, (createEventMessage globalID target token msg).2 = .ok (q, m)) ∧
    (∀ n c s : Bytes, dot ∉ n → dot ∉ c → dot ∉ s → target = n ++ dot :: (c ++ dot :: s) →
        createEventMessage globalID target token msg =
          (atomicAddUint32 globalID 1,
            .ok (n, { ID := (atomicAddUint32 globalID 1 : Int), Token := token, Category := c,
                      Service := s, Params := msg }))) ∧
    createEventMessage globalID (bytesOf "a.b") token msg =
      (globalID, .error .ErrInvalidTarget) ∧
    createEventMessage globalID (bytesOf "a.b.c.d") token msg =
      (globalID, .error .ErrInvalidTarget) ∧
    createEventMessage globalID (bytesOf "") token msg =
      (globalID, .error .ErrInvalidTarget) := by
  refine ⟨?_, ?_, ?_, rfl, rfl, rfl⟩
  · intro h
    simp [createEventMessage, h]
  · intro h
    simp [createEventMessage, h]
  · intro n c s hn hc hs ht
    subst ht
    simp [createEventMessage, stringsSplit_three n c s hn hc hs]

/-- C2, at the target `node.mod.svc`. -/
theorem createEventMessage_address_parsing_witness :
    createEventMessage 7 (bytesOf "node.mod.svc") (bytesOf "tok") (bytesOf "<p>") =
      (8, .ok (bytesOf "node", { ID := 8, Token := bytesOf "tok", Category := bytesOf "mod",
                                 Service := bytesOf "svc", Params := bytesOf "<p>" })) :=
  (createEventMessage_address_parsing 7 (bytesOf "node.mod.svc") (bytesOf "tok")
    (bytesOf "<p>")).2.2.1 (bytesOf "node") (bytesOf "mod") (bytesOf "svc")
    (by decide) (by decide) (by decide) (by decide)

/-- C10 is false as stated: the target `a..c` has an empty segment and is accepted. -/
theorem createEventMessage_empty_segment_accepted :
    createEventMessage 0 (bytesOf "a..c") [] [] =
        (1, .ok (bytesOf "a", { ID := 1, Token := [], Category := [], Service := bytesOf "c",
                                Params := [] })) ∧
    [] ∈ stringsSplit dot (bytesOf "a..c") := by
  decide

/-- C10, amended: a target is rejected, with `ErrInvalidTarget` and no other error, exactly
when it does not hold two dots; empty segments are not looked at, so `a..c`, `.b.c`, `a.b.`
and `..` are accepted with an empty routing key, category or service. -/
theorem createEventMessage_rejects_iff_dot_count (globalID : Nat) (target token msg : Bytes) :
    ((createEventMessage globalID target token msg).2 = .error .ErrInvalidTarget ↔
        target.count dot ≠ 2) ∧
    (∀ e, (createEventMessage globalID target token msg).2 = .error e → e = .ErrInvalidTarget) ∧
    (createEventMessage globalID (bytesOf "a..c") token msg).2 =
      .ok (bytesOf "a", { ID := (atomicAddUint32 globalID 1 : Int), Token := token,
                          Category := [], Service := bytesOf "c", Params := msg }) ∧
    (createEventMessage globalID (bytesOf ".b.c") token msg).2 =
      .ok ([], { ID := (atomicAddUint32 globalID 1 : Int), Token := token,
                          Category := bytesOf "b", Service := bytesOf "c", Params := msg }) ∧
    (createEventMessage globalID (bytesOf "a.b.") token msg).2 =
      .ok (bytesOf "a", { ID := (atomicAddUint32 globalID 1 : Int), Token := token,
                          Category := bytesOf "b", Service := [], Params := msg }) ∧
    (createEventMessage globalID (bytesOf "..") token msg).2 =
      .ok ([], { ID := (atomicAddUint32 globalID 1 : Int), Token := token,
                          Category := [], Service := [], Params := msg }) := by
  refine ⟨?_, ?_, rfl, rfl, rfl, rfl⟩
  · rw [createEventMessage_error_iff, stringsSplit_length]
    omega
  · intro e
    unfold createEventMessage
    by_cases h : (stringsSplit dot target).length ≠ 3
    · simp [h]; intro h'; exact h'.symm
    · simp [h]

/-! ## Id counter -/

theorem createEventMessage_counter (g : Nat) (target token msg : Bytes) :
    (createEventMessage g target token msg =
        (g, .error .ErrInvalidTarget)) ∨
    (∃ q m, createEventMessage g target token msg = (atomicAddUint32 g 1, .ok (q, m)) ∧
        m.ID = (atomicAddUint32 g 1 : Int)) := by
  unfold createEventMessage
  by_cases h : (stringsSplit dot target).length ≠ 3
  · left; simp [h]
  · right
    simp only [h, if_false]
    exact ⟨_, _, rfl, rfl⟩

/-- C8, amended: while the 32 bit counter has not wrapped (counter value plus number of calls
below 2^32), the ids of the successful calls are strictly increasing, all above the starting
counter value. -/
theorem createdIds_bounds (calls : List CreateCall) :
    ∀ g, g + calls.length < 2 ^ 32 →
      (∀ id ∈ createdIds g calls, (g : Int) < id ∧ id ≤ (g : Int) + calls.length) ∧
      (createdIds g calls).Pairwise (· < ·) := by
  induction calls with
  | nil => intro g _; simp [createdIds]
  | cons c cs ih =>
    intro g hg
    simp only [List.length_cons] at hg
    rcases createEventMessage_counter g c.target c.token c.msg with h | ⟨q, m, h, hid⟩
    · have := ih g (by omega)
      simp only [createdIds, h]
      refine ⟨?_, this.2⟩
      intro id hmem
      have := this.1 id hmem
      simp only [List.length_cons]
      push_cast
      omega
    · have hadd : atomicAddUint32 g 1 = g + 1 := by
        unfold atomicAddUint32
        exact Nat.mod_eq_of_lt (by omega)
      have := ih (g + 1) (by omega)
      simp only [createdIds, h, hadd] at hid ⊢
      refine ⟨?_, ?_⟩
      · intro id hmem
        simp only [List.length_cons]
        push_cast
        rcases List.mem_cons.1 hmem with e | hmem
        · subst e; rw [hid]; push_cast; omega
        · have := this.1 id hmem
          push_cast at this
          omega
      · refine List.pairwise_cons.2 ⟨?_, this.2⟩
        intro id hmem
        have := this.1 id hmem
        rw [hid]
        push_cast at this ⊢
        omega


theorem createdIds_append (l1 l2 : List CreateCall) : ∀ g,
    createdIds g (l1 ++ l2) = createdIds g l1 ++ createdIds (counterAfter g l1) l2 := by
  induction l1 with
  | nil => intro g; simp [createdIds, counterAfter]
  | cons c cs ih =>
    intro g
    rcases createEventMessage_counter g c.target c.token c.msg with h | ⟨q, m, h, _⟩
    · simp [createdIds, counterAfter, h, ih]
    · simp [createdIds, counterAfter, h, ih]

theorem counterAfter_replicate (n : Nat) : ∀ g,
    counterAfter g (List.replicate n validCall) = (g + n) % 2 ^ 32 ∨ n = 0 := by
  induction n with
  | zero => intro g; right; rfl
  | succ n ih =>
    intro g
    left
    have h : createEventMessage g validCall.target validCall.token validCall.msg =
        (atomicAddUint32 g 1, .ok (bytesOf "a",
          { ID := (atomicAddUint32 g 1 : Int), Token := [], Category := bytesOf "b",
            Service := bytesOf "c", Params := [] })) := rfl
    simp only [List.replicate_succ, counterAfter, h]
    rcases ih (atomicAddUint32 g 1) with h2 | h2
    · rw [h2]; unfold atomicAddUint32; omega
    · subst h2; simp [counterAfter, atomicAddUint32]

/-- C8 is false as stated: the ids of 2^32 successive successful calls of a fresh process
are not strictly increasing (the id after 4294967295 is 0). -/
theorem createdIds_wraps :
    ¬ (createdIds 0 (List.replicate (2 ^ 32) validCall)).Pairwise (· < ·) := by
  intro hp
  have e : List.replicate (2 ^ 32) validCall =
      List.replicate (2 ^ 32 - 2) validCall ++ [validCall, validCall] := by
    have : (2:Nat) ^ 32 = (2 ^ 32 - 2) + 2 := by norm_num
    conv_lhs => rw [this]
    rw [List.replicate_add]
    rfl
  rw [e, createdIds_append] at hp
  have hc : counterAfter 0 (List.replicate (2 ^ 32 - 2) validCall) = 2 ^ 32 - 2 := by
    rcases counterAfter_replicate (2 ^ 32 - 2) 0 with h | h
    · rw [h]; norm_num
    · norm_num at h
  rw [hc] at hp
  have h2 : createdIds (2 ^ 32 - 2) [validCall, validCall] = [4294967295, 0] := by
    decide
  rw [h2] at hp
  have := (List.pairwise_append.1 hp).2.1
  simp at this

/-- C8, amended, at three calls of a fresh process, the second of which fails. -/
theorem createdIds_bounds_witness :
    (createdIds 0 [validCall, { target := bytesOf "a.b", token := [], msg := [] }, validCall]).Pairwise
      (· < ·) :=
  (createdIds_bounds [validCall, { target := bytesOf "a.b", token := [], msg := [] }, validCall] 0
    (by decide)).2

/-! ## The XML envelopes -/

theorem noCDEnd_of_not_infix (p : Bytes) : ∀ b0 b1 : Nat,
    ¬ [0x5D, 0x5D, 0x3E] <:+: (b0 :: b1 :: p) → noCDEnd b0 b1 p = true := by
  induction p with
  | nil => intro b0 b1 _; rfl
  | cons b p ih =>
    intro b0 b1 h
    simp only [noCDEnd, Bool.and_eq_true, Bool.not_eq_true', decide_eq_false_iff_not]
    constructor
    · rintro ⟨rfl, rfl, rfl⟩
      exact h ⟨[], p, by simp⟩
    · apply ih
      rintro ⟨pre, post, e⟩
      exact h ⟨b0 :: pre, post, by simp [← e]⟩

theorem noCDEnd_zero (p : Bytes) (h : ¬ [0x5D, 0x5D, 0x3E] <:+: p) : noCDEnd 0 0 p = true := by
  apply noCDEnd_of_not_infix
  rintro ⟨pre, post, e⟩
  match pre, e with
  | [], e => simp at e
  | [x], e => simp at e
  | x :: y :: pre', e =>
    simp at e
    exact h ⟨pre', post, by simp [e.2.2]⟩

theorem textLoop_plain (rest : Bytes) (s : Bytes) : ∀ (fuel b0 b1 : Nat) (buf : Bytes),
    s.length < fuel → b1 ≠ 0x0D → noCDEnd b0 b1 s = true → 0x3C ∉ s → 0x26 ∉ s → 0x0D ∉ s →
    textLoop none false fuel b0 b1 buf (s ++ 0x3C :: rest) =
      finishText (buf ++ s) 0 (0x3C :: rest) := by
  induction s with
  | nil =>
    intro fuel b0 b1 buf hf _ _ _ _ _
    obtain ⟨f, rfl⟩ : ∃ f, fuel = f + 1 := ⟨fuel - 1, by simp at hf; omega⟩
    simp [textLoop]
  | cons b s ih =>
    intro fuel b0 b1 buf hf hb1 hcd hlt hamp hcr
    obtain ⟨f, rfl⟩ : ∃ f, fuel = f + 1 := ⟨fuel - 1, by simp at hf; omega⟩
    simp only [noCDEnd, Bool.and_eq_true, Bool.not_eq_true', decide_eq_false_iff_not] at hcd
    simp only [List.mem_cons, not_or] at hlt hamp hcr
    have h1 : ¬ (b = 0x3C) := fun e => hlt.1 e.symm
    have h2 : ¬ (b = 0x26) := fun e => hamp.1 e.symm
    have h3 : ¬ (b = 0x0D) := fun e => hcr.1 e.symm
    have hlen : s.length < f := by simp at hf; omega
    simp only [List.cons_append, textLoop, hcd.1, h1, h2, h3, hb1, if_false, false_and,
      reduceCtorEq, true_and, and_false]
    rw [ih f b1 b (buf ++ [b]) hlen h3 hcd.2 hlt.2 hamp.2 hcr.2]
    simp

theorem textLoop_cdata (rest : Bytes) (p : Bytes) : ∀ (fuel b0 b1 : Nat) (buf : Bytes),
    p.length + 3 ≤ fuel → b1 ≠ 0x0D → noCDEnd b0 b1 (p ++ [0x5D, 0x5D]) = true → 0x0D ∉ p →
    textLoop none true fuel b0 b1 buf (p ++ 0x5D :: 0x5D :: 0x3E :: rest) =
      finishText (buf ++ p ++ [0x5D, 0x5D]) 2 rest := by
  induction p with
  | nil =>
    intro fuel b0 b1 buf hf hb1 hcd _
    obtain ⟨f, rfl⟩ : ∃ f, fuel = f + 3 := ⟨fuel - 3, by simp at hf; omega⟩
    simp only [List.nil_append, noCDEnd, Bool.and_eq_true, Bool.not_eq_true',
      decide_eq_false_iff_not] at hcd
    simp [textLoop, hb1]
  | cons b p ih =>
    intro fuel b0 b1 buf hf hb1 hcd hcr
    obtain ⟨f, rfl⟩ : ∃ f, fuel = f + 1 := ⟨fuel - 1, by simp at hf; omega⟩
    simp only [List.cons_append, noCDEnd, Bool.and_eq_true, Bool.not_eq_true',
      decide_eq_false_iff_not] at hcd
    simp only [List.mem_cons, not_or] at hcr
    have h3 : ¬ (b = 0x0D) := fun e => hcr.1 e.symm
    have hlen : p.length + 3 ≤ f := by simp at hf; omega
    simp only [List.cons_append, textLoop, hcd.1, h3, hb1, if_false, false_and,
      reduceCtorEq, Bool.true_eq_false, and_false, true_and]
    rw [ih f b1 b (buf ++ [b]) hlen h3 hcd.2 hcr.2]
    simp

theorem noCDEnd_append_brackets (p : Bytes) : ∀ b0 b1 : Nat,
    noCDEnd b0 b1 (p ++ [0x5D, 0x5D]) = noCDEnd b0 b1 p := by
  induction p with
  | nil => intro b0 b1; simp [noCDEnd]
  | cons b p ih => intro b0 b1; simp [noCDEnd, ih]

theorem rawToken_text (u : NameTables) (s rest : Bytes) (hs : PlainText s) (hne : s ≠ []) :
    rawToken u ⟨s ++ 0x3C :: rest, none⟩ = .tok (.CharData s) ⟨0x3C :: rest, none⟩ := by
  obtain ⟨hv, hlt, hamp, hcr, hcd⟩ := hs
  cases s with
  | nil => exact absurd rfl hne
  | cons b s =>
    have hb : b ≠ 0x3C := fun e => hlt (by simp [e])
    have h := textLoop_plain rest (b :: s) ((b :: s ++ 0x3C :: rest).length + 1) 0 0 []
      (by simp; omega) (by decide) (noCDEnd_zero _ hcd) hlt hamp hcr
    simp only [rawToken, List.cons_append, hb, ne_eq, not_false_eq_true, if_true, text]
    simp only [List.cons_append] at h
    rw [h]
    simp [finishText, hv]

theorem rawToken_cdata (u : NameTables) (p rest : Bytes) (hp : CDataText p) :
    rawToken u ⟨bytesOf "<![CDATA[" ++ (p ++ (bytesOf "]]>" ++ rest)), none⟩ =
      .tok (.CharData p) ⟨rest, none⟩ := by
  obtain ⟨hv, hcr, hcd⟩ := hp
  have h := textLoop_cdata rest p ((p ++ 0x5D :: 0x5D :: 0x3E :: rest).length + 1) 0 0 []
      (by simp) (by decide) (by rw [noCDEnd_append_brackets]; exact noCDEnd_zero _ hcd) hcr
  show (match text none true (p ++ (bytesOf "]]>" ++ rest)) with
      | none => RawResult.err
      | some (data, rest4) => RawResult.tok (.CharData data) { input := rest4, toClose := none }) = _
  have e : p ++ (bytesOf "]]>" ++ rest) = p ++ 0x5D :: 0x5D :: 0x3E :: rest := rfl
  rw [e, text, h]
  simp [finishText, hv]

theorem readLoop_mono (u : NameTables) (f : Nat) : ∀ (stack : List Element) (d : Decoder)
    (r : Option Element), readLoop u f stack d = some r →
    ∀ f', f ≤ f' → readLoop u f' stack d = some r := by
  induction f with
  | zero => intro stack d r h; simp [readLoop] at h
  | succ f ih =>
    intro stack d r h f' hf
    obtain ⟨g, rfl⟩ : ∃ g, f' = g + 1 := ⟨f' - 1, by omega⟩
    have hg : f ≤ g := by omega
    simp only [readLoop] at h ⊢
    cases hr : rawToken u d with
    | eof => simp only [hr] at h ⊢; exact h
    | err => simp only [hr] at h ⊢; exact h
    | tok t d' =>
      simp only [hr] at h ⊢
      cases stack with
      | nil => exact h
      | cons top below =>
        cases t with
        | StartElement nm attr => exact ih _ _ _ h _ hg
        | EndElement nm =>
          simp only at h ⊢
          by_cases hc : top.Tag ≠ nm.Local ∨ top.Space ≠ nm.Space
          · simp only [hc, if_true] at h ⊢; exact h
          · simp only [hc, if_false] at h ⊢
            cases below with
            | nil => exact ih _ _ _ h _ hg
            | cons parent more => exact ih _ _ _ h _ hg
        | CharData data => exact ih _ _ _ h _ hg
        | Comment data => exact ih _ _ _ h _ hg
        | ProcInst target inst => exact ih _ _ _ h _ hg
        | Directive data => exact ih _ _ _ h _ hg

theorem ReadsIn.mono {u : NameTables} {n m : Nat} {stack : List Element} {d : Decoder}
    {r : Option Element} (h : ReadsIn u n stack d r) (hnm : n ≤ m) : ReadsIn u m stack d r := by
  obtain ⟨f, hf, e⟩ := h
  exact ⟨f, by omega, e⟩

theorem ReadsIn.of_eq {u : NameTables} {n k : Nat} {s s' : List Element} {d d' : Decoder}
    {r : Option Element} (h : ReadsIn u n s' d' r)
    (e : ∀ f, readLoop u (f + k) s d = readLoop u f s' d') :
    ReadsIn u (n + k) s d r := by
  obtain ⟨f, hf, e'⟩ := h
  exact ⟨f + k, by omega, by rw [e, e']⟩

theorem ReadFromBytes_of_readsIn (u : NameTables) (data : Bytes) (r : Option Element)
    (h : ReadsIn u (2 * data.length + 2) [{ Space := [], Tag := [], Attr := [], Child := [] }]
      { input := data, toClose := none } r) :
    ReadFromBytes u data = r := by
  obtain ⟨f, hf, e⟩ := h
  simp only [ReadFromBytes, readLoop_mono u f _ _ _ e _ hf]

theorem readsIn_eof (u : NameTables) (doc : Element) :
    ReadsIn u 1 [doc] ⟨[], none⟩ (some doc) := ⟨1, le_refl _, rfl⟩

theorem readsIn_hole (u : NameTables) (n : Nat) (sp tag : Bytes) (attr : List EAttr)
    (below : List Element) (s rest : Bytes) (r : Option Element) (hs : PlainText s)
    (h : ReadsIn u n (⟨sp, tag, attr, txt s⟩ :: below) ⟨0x3C :: rest, none⟩ r) :
    ReadsIn u (n + 1) (⟨sp, tag, attr, []⟩ :: below) ⟨s ++ 0x3C :: rest, none⟩ r := by
  by_cases hne : s = []
  · subst hne
    exact h.mono (by omega)
  · refine h.of_eq (k := 1) ?_
    intro f
    simp only [readLoop, rawToken_text u s rest hs hne, txt, hne, if_false, List.nil_append]

theorem readsIn_cdata (u : NameTables) (n : Nat) (sp tag : Bytes) (attr : List EAttr)
    (below : List Element) (p rest : Bytes) (r : Option Element) (hp : CDataText p)
    (h : ReadsIn u n (⟨sp, tag, attr, [.charData p]⟩ :: below) ⟨rest, none⟩ r) :
    ReadsIn u (n + 1) (⟨sp, tag, attr, []⟩ :: below)
      ⟨bytesOf "<![CDATA[" ++ (p ++ (bytesOf "]]>" ++ rest)), none⟩ r := by
  refine h.of_eq (k := 1) ?_
  intro f
  simp only [readLoop, rawToken_cdata u p rest hp, List.nil_append]

theorem parseDigits_append (xs ys : Bytes) : ∀ a,
    parseDigits a (xs ++ ys) = (parseDigits a xs).bind (fun v => parseDigits v ys) := by
  induction xs with
  | nil => intro a; simp [parseDigits]
  | cons x xs ih =>
    intro a
    simp only [List.cons_append, parseDigits]
    split
    · exact ih _
    · rfl

theorem natDigits_spec (f : Nat) : ∀ (n : Nat) (acc : Bytes), n < f →
    ∃ ds, natDigits f n acc = ds ++ acc ∧ ds ≠ [] ∧ (∀ d ∈ ds, 0x30 ≤ d ∧ d ≤ 0x39) ∧
      ∀ a, parseDigits a ds = some (a * 10 ^ ds.length + n) := by
  induction f with
  | zero => intro n acc h; omega
  | succ f ih =>
    intro n acc h
    by_cases hn : n < 10
    · refine ⟨[0x30 + n], by simp [natDigits, hn], by simp, ?_, ?_⟩
      · intro d hd
        simp only [List.mem_singleton] at hd
        omega
      · intro a
        have h1 : 0x30 ≤ 0x30 + n ∧ 0x30 + n ≤ 0x39 := by omega
        simp [parseDigits, h1]
    · obtain ⟨ds, e, _, hd, hp⟩ := ih (n / 10) ((0x30 + n % 10) :: acc) (by omega)
      refine ⟨ds ++ [0x30 + n % 10], by simp [natDigits, hn, e], by simp, ?_, ?_⟩
      · intro d hmem
        rcases List.mem_append.1 hmem with h1 | h1
        · exact hd d h1
        · simp only [List.mem_singleton] at h1
          omega
      · intro a
        have h1 : 0x30 ≤ 0x30 + n % 10 ∧ 0x30 + n % 10 ≤ 0x39 := by omega
        rw [parseDigits_append, hp a]
        simp only [Option.some_bind, parseDigits, h1, and_self, if_true, List.length_append,
          List.length_singleton, Option.some.injEq, Nat.add_sub_cancel_left]
        rw [pow_succ]
        have := Nat.div_add_mod n 10
        nlinarith [this]

theorem fmtNat_spec (n : Nat) :
    fmtNat n ≠ [] ∧ (∀ d ∈ fmtNat n, 0x30 ≤ d ∧ d ≤ 0x39) ∧ parseDigits 0 (fmtNat n) = some n := by
  obtain ⟨ds, e, hne, hd, hp⟩ := natDigits_spec (n + 1) n [] (by omega)
  simp only [List.append_nil] at e
  unfold fmtNat
  rw [e]
  exact ⟨hne, hd, by simpa using hp 0⟩

theorem Atoi_fmtInt (i : Int) (hlo : -2 ^ 63 ≤ i) (hhi : i < 2 ^ 63) : Atoi (fmtInt i) = some i := by
  obtain ⟨hne, hd, hp⟩ := fmtNat_spec i.natAbs
  by_cases hneg : i < 0
  · have hle : i.natAbs ≤ 2 ^ 63 := by omega
    have : (-(i.natAbs : Int)) = i := by omega
    simp only [Atoi, fmtInt, hneg, if_true, List.head?_cons, List.tail_cons, hne, if_false, hp,
      true_or, or_true, hle, this]
  · have hlt : i.natAbs < 2 ^ 63 := by omega
    have : ((i.natAbs : Int)) = i := by omega
    cases hf : fmtNat i.natAbs with
    | nil => exact absurd hf hne
    | cons d ds =>
      have hd0 := hd d (by simp [hf])
      have h1 : d ≠ 0x2B := by omega
      have h2 : d ≠ 0x2D := by omega
      rw [hf] at hp
      simp only [Atoi, fmtInt, hneg, if_false, hf, List.head?_cons, Option.some.injEq, h1, h2,
        or_self, hp, hlt, if_true, this, reduceCtorEq]

theorem fmtInt_bytes (i : Int) : fmtInt i ≠ [] ∧ ∀ b ∈ fmtInt i, b = 0x2D ∨ (0x30 ≤ b ∧ b ≤ 0x39) := by
  obtain ⟨hne, hd, _⟩ := fmtNat_spec i.natAbs
  unfold fmtInt
  split
  · refine ⟨by simp, ?_⟩
    intro b hb
    rcases List.mem_cons.1 hb with h | h
    · exact Or.inl h
    · exact Or.inr (hd b h)
  · exact ⟨hne, fun b hb => Or.inr (hd b hb)⟩

theorem validCharsFuel_ascii (s : Bytes) : ∀ fuel, s.length ≤ fuel →
    (∀ b ∈ s, 0x20 ≤ b ∧ b < 0x80) → validCharsFuel fuel s = true := by
  induction s with
  | nil => intro fuel _ _; cases fuel <;> rfl
  | cons b s ih =>
    intro fuel hf h
    obtain ⟨f, rfl⟩ : ∃ f, fuel = f + 1 := ⟨fuel - 1, by simp at hf; omega⟩
    have hb := h b (by simp)
    have h1 : b < 0x80 := hb.2
    have h2 : isInCharacterRange b = true := by
      simp only [isInCharacterRange, Bool.or_eq_true, Bool.and_eq_true, decide_eq_true_eq]
      omega
    have h3 : ¬ (b = runeError ∧ 1 = 1) := by
      simp only [runeError]; omega
    simp only [validCharsFuel, decodeRune, h1, if_true, h2, List.drop_succ_cons, List.drop_zero]
    simp only [runeError, and_true]
    rw [if_neg (by omega)]
    exact ih f (by simp at hf; omega) (fun c hc => h c (by simp [hc]))

theorem not_infix_of_not_mem (s : Bytes) (h : 0x3E ∉ s) : ¬ bytesOf "]]>" <:+: s := by
  rintro ⟨pre, post, e⟩
  apply h
  rw [← e]
  simp [bytesOf]

theorem plainText_fmtInt (i : Int) : PlainText (fmtInt i) := by
  obtain ⟨_, hb⟩ := fmtInt_bytes i
  refine ⟨?_, ?_, ?_, ?_, ?_⟩
  · exact validCharsFuel_ascii _ _ (le_refl _) (fun b h => by rcases hb b h with h | h <;> omega)
  · intro h; rcases hb _ h with h | h <;> omega
  · intro h; rcases hb _ h with h | h <;> omega
  · intro h; rcases hb _ h with h | h <;> omega
  · exact not_infix_of_not_mem _ (fun h => by rcases hb _ h with h | h <;> omega)

theorem textOfChildren_txt (s : Bytes) : textOfChildren (txt s) = s := by
  unfold txt
  split
  · next h => simp [textOfChildren, h]
  · simp [textOfChildren]

theorem readFromBytes_event (u : NameTables) (m : EventMessage)
    (ht : PlainText m.Token) (hc : PlainText m.Category) (hs : PlainText m.Service)
    (hp : CDataText m.Params) :
    ReadFromBytes u m.toXML = some (eventDoc m) := by
  apply ReadFromBytes_of_readsIn
  have h := readsIn_eof u (eventDoc m)
  have h := ReadsIn.of_eq (k := 4)
    (s := [openElem "params" [.charData m.Params],
      eventFrame [indent, leaf "id" (fmtInt m.ID), indent, leaf "token" m.Token, indent,
          leaf "catgory" m.Category, indent, leaf "service" m.Service, indent], docHead])
    (d := ⟨bytesOf "</params>\n</event>\n", none⟩) h (fun _ => rfl)
  have h := readsIn_cdata u _ _ _ _ _ _ _ _ hp h
  have h := ReadsIn.of_eq (k := 3)
    (s := [openElem "service" (txt m.Service),
      eventFrame [indent, leaf "id" (fmtInt m.ID), indent, leaf "token" m.Token, indent,
          leaf "catgory" m.Category, indent], docHead])
    (d := ⟨0x3C :: (bytesOf "/service>\n  <params>" ++ (bytesOf "<![CDATA[" ++ (m.Params ++
        (bytesOf "]]>" ++ bytesOf "</params>\n</event>\n")))), none⟩) h (fun _ => rfl)
  have h := readsIn_hole u _ _ _ _ _ _ _ _ hs h
  have h := ReadsIn.of_eq (k := 3)
    (s := [openElem "catgory" (txt m.Category),
      eventFrame [indent, leaf "id" (fmtInt m.ID), indent, leaf "token" m.Token, indent], docHead])
    (d := ⟨0x3C :: (bytesOf "/catgory>\n  <service>" ++ (m.Service ++ 0x3C ::
        (bytesOf "/service>\n  <params>" ++ (bytesOf "<![CDATA[" ++ (m.Params ++ (bytesOf "]]>" ++
        bytesOf "</params>\n</event>\n")))))), none⟩) h (fun _ => rfl)
  have h := readsIn_hole u _ _ _ _ _ _ _ _ hc h
  have h := ReadsIn.of_eq (k := 3)
    (s := [openElem "token" (txt m.Token),
      eventFrame [indent, leaf "id" (fmtInt m.ID), indent], docHead])
    (d := ⟨0x3C :: (bytesOf "/token>\n  <catgory>" ++ (m.Category ++ 0x3C ::
        (bytesOf "/catgory>\n  <service>" ++ (m.Service ++ 0x3C ::
        (bytesOf "/service>\n  <params>" ++ (bytesOf "<![CDATA[" ++ (m.Params ++ (bytesOf "]]>" ++
        bytesOf "</params>\n</event>\n")))))))), none⟩) h (fun _ => rfl)
  have h := readsIn_hole u _ _ _ _ _ _ _ _ ht h
  have h := ReadsIn.of_eq (k := 3)
    (s := [openElem "id" (txt (fmtInt m.ID)),
      eventFrame [indent], docHead])
    (d := ⟨0x3C :: (bytesOf "/id>\n  <token>" ++ (m.Token ++ 0x3C ::
        (bytesOf "/token>\n  <catgory>" ++ (m.Category ++ 0x3C ::
        (bytesOf "/catgory>\n  <service>" ++ (m.Service ++ 0x3C ::
        (bytesOf "/service>\n  <params>" ++ (bytesOf "<![CDATA[" ++ (m.Params ++ (bytesOf "]]>" ++
        bytesOf "</params>\n</event>\n")))))))))), none⟩) h (fun _ => rfl)
  have h := readsIn_hole u _ _ _ _ _ _ _ _ (plainText_fmtInt m.ID) h
  have h := ReadsIn.of_eq (k := 5)
    (s := [⟨[], [], [], []⟩])
    (d := ⟨bytesOf "<?xml version=\"1.0\"?>\n<event version=\"1\">\n  <id>" ++ ((fmtInt m.ID) ++
        0x3C :: (bytesOf "/id>\n  <token>" ++ (m.Token ++ 0x3C ::
        (bytesOf "/token>\n  <catgory>" ++ (m.Category ++ 0x3C ::
        (bytesOf "/catgory>\n  <service>" ++ (m.Service ++ 0x3C ::
        (bytesOf "/service>\n  <params>" ++ (bytesOf "<![CDATA[" ++ (m.Params ++ (bytesOf "]]>" ++
        bytesOf "</params>\n</event>\n"))))))))))), none⟩) h (fun _ => rfl)
  have e : m.toXML = bytesOf "<?xml version=\"1.0\"?>\n<event version=\"1\">\n  <id>" ++
      ((fmtInt m.ID) ++ 0x3C :: (bytesOf "/id>\n  <token>" ++ (m.Token ++ 0x3C ::
      (bytesOf "/token>\n  <catgory>" ++ (m.Category ++ 0x3C ::
      (bytesOf "/catgory>\n  <service>" ++ (m.Service ++ 0x3C ::
      (bytesOf "/service>\n  <params>" ++ (bytesOf "<![CDATA[" ++ (m.Params ++ (bytesOf "]]>" ++
      bytesOf "</params>\n</event>\n"))))))))))) := by
    simp [EventMessage.toXML, bytesOf]
  rw [e]
  refine h.mono ?_
  have hl : 13 ≤ (bytesOf "<?xml version=\"1.0\"?>\n<event version=\"1\">\n  <id>").length := by decide
  simp only [List.length_append, List.length_cons]
  omega

theorem readFromBytes_response (u : NameTables) (m : EventResponse)
    (hp : CDataText m.Message) :
    ReadFromBytes u m.toXML = some (responseDoc m) := by
  apply ReadFromBytes_of_readsIn
  have h := readsIn_eof u (responseDoc m)
  have h := ReadsIn.of_eq (k := 4)
    (s := [openElem "message" [.charData m.Message],
      responseFrame [indent, leaf "id" (fmtInt m.ID), indent], docHead])
    (d := ⟨bytesOf "</message>\n</response>\n", none⟩) h (fun _ => rfl)
  have h := readsIn_cdata u _ _ _ _ _ _ _ _ hp h
  have h := ReadsIn.of_eq (k := 3)
    (s := [openElem "id" (txt (fmtInt m.ID)),
      responseFrame [indent], docHead])
    (d := ⟨0x3C :: (bytesOf "/id>\n  <message>" ++ (bytesOf "<![CDATA[" ++ (m.Message ++
        (bytesOf "]]>" ++ bytesOf "</message>\n</response>\n")))), none⟩) h (fun _ => rfl)
  have h := readsIn_hole u _ _ _ _ _ _ _ _ (plainText_fmtInt m.ID) h
  have h := ReadsIn.of_eq (k := 5)
    (s := [⟨[], [], [], []⟩])
    (d := ⟨bytesOf "<?xml version=\"1.0\"?>\n<response>\n  <id>" ++ ((fmtInt m.ID) ++ 0x3C ::
        (bytesOf "/id>\n  <message>" ++ (bytesOf "<![CDATA[" ++ (m.Message ++ (bytesOf "]]>" ++
        bytesOf "</message>\n</response>\n"))))), none⟩) h (fun _ => rfl)
  have e : m.toXML = bytesOf "<?xml version=\"1.0\"?>\n<response>\n  <id>" ++ ((fmtInt m.ID) ++
      0x3C :: (bytesOf "/id>\n  <message>" ++ (bytesOf "<![CDATA[" ++ (m.Message ++
      (bytesOf "]]>" ++ bytesOf "</message>\n</response>\n"))))) := by
    simp [EventResponse.toXML, bytesOf]
  rw [e]
  refine h.mono ?_
  have hl : 13 ≤ (bytesOf "<?xml version=\"1.0\"?>\n<response>\n  <id>").length := by decide
  simp only [List.length_append, List.length_cons]
  omega

theorem decodeEventMessage_toXML (u : NameTables) (m : EventMessage)
    (hid : -2 ^ 63 ≤ m.ID ∧ m.ID < 2 ^ 63)
    (ht : PlainText m.Token) (hc : PlainText m.Category) (hs : PlainText m.Service)
    (hp : CDataText m.Params) :
    decodeEventMessage u m.toXML = .ok m := by
  have hA := Atoi_fmtInt m.ID hid.1 hid.2
  simp [decodeEventMessage, readFromBytes_event u m ht hc hs hp, eventDoc, docHead, leaf, indent,
    SelectElement, SelectAttr, spaceDecompose, cutColon, spaceMatch, bytesOf, Element.Text,
    textOfChildren_txt, textOfChildren, hA]

theorem decodeEventResponse_toXML (u : NameTables) (m : EventResponse)
    (hid : -2 ^ 63 ≤ m.ID ∧ m.ID < 2 ^ 63) (hp : CDataText m.Message) :
    decodeEventResponse u m.toXML = .ok m := by
  have hA := Atoi_fmtInt m.ID hid.1 hid.2
  simp [decodeEventResponse, readFromBytes_response u m hp, responseDoc, docHead, leaf, indent,
    SelectElement, spaceDecompose, cutColon, spaceMatch, bytesOf, Element.Text,
    textOfChildren_txt, textOfChildren, hA]

theorem decodeEventMessage_ok_iff (u : NameTables) (data : Bytes) (m : EventMessage) :
    decodeEventMessage u data = .ok m ↔
      ∃ doc root xversion xid xtoken xcategory xservice xparams,
        ReadFromBytes u data = some doc ∧
        SelectElement doc (bytesOf "event") = some root ∧
        SelectAttr root (bytesOf "version") = some xversion ∧
        xversion.Value = bytesOf "1" ∧
        SelectElement root (bytesOf "id") = some xid ∧
        Atoi xid.Text = some m.ID ∧
        SelectElement root (bytesOf "token") = some xtoken ∧
        SelectElement root (bytesOf "catgory") = some xcategory ∧
        SelectElement root (bytesOf "service") = some xservice ∧
        SelectElement root (bytesOf "params") = some xparams ∧
        m.Token = xtoken.Text ∧ m.Category = xcategory.Text ∧
        m.Service = xservice.Text ∧ m.Params = xparams.Text := by
  unfold decodeEventMessage
  constructor
  · intro h
    split at h
    · simp at h
    next doc h1 =>
    split at h
    · simp at h
    next root h2 =>
    split at h
    · simp at h
    next xversion h3 =>
    split at h
    · simp at h
    next h4 =>
    split at h
    · simp at h
    next xid h5 =>
    split at h
    · simp at h
    next id h6 =>
    split at h
    · simp at h
    next xtoken h7 =>
    split at h
    · simp at h
    next xcategory h8 =>
    split at h
    · simp at h
    next xservice h9 =>
    split at h
    · simp at h
    next xparams h10 =>
    simp only [Except.ok.injEq] at h
    subst h
    exact ⟨doc, root, xversion, xid, xtoken, xcategory, xservice, xparams, h1, h2, h3,
      by simpa using h4, h5, h6, h7, h8, h9, h10, rfl, rfl, rfl, rfl⟩
  · rintro ⟨doc, root, xversion, xid, xtoken, xcategory, xservice, xparams,
      h1, h2, h3, h4, h5, h6, h7, h8, h9, h10, h11, h12, h13, h14⟩
    simp only [h1, h2, h3, h4, h5, h6, h7, h8, h9, h10, ← h11, ← h12, ← h13, ← h14]
    simp

theorem decodeEventMessage_error (u : NameTables) (data : Bytes) (e : Error)
    (h : decodeEventMessage u data = .error e) : e = .ErrInvalidEvent := by
  unfold decodeEventMessage at h
  repeat' split at h
  all_goals first | (simp only [Except.error.injEq] at h; exact h.symm) | simp at h

theorem decodeEventResponse_ok_iff (u : NameTables) (data : Bytes) (r : EventResponse) :
    decodeEventResponse u data = .ok r ↔
      ∃ doc root xid xmessage,
        ReadFromBytes u data = some doc ∧
        SelectElement doc (bytesOf "response") = some root ∧
        SelectElement root (bytesOf "id") = some xid ∧
        Atoi xid.Text = some r.ID ∧
        SelectElement root (bytesOf "message") = some xmessage ∧
        r.Message = xmessage.Text := by
  unfold decodeEventResponse
  constructor
  · intro h
    split at h
    · simp at h
    next doc h1 =>
    split at h
    · simp at h
    next root h2 =>
    split at h
    · simp at h
    next xid h5 =>
    split at h
    · simp at h
    next id h6 =>
    split at h
    · simp at h
    next xmessage h7 =>
    simp only [Except.ok.injEq] at h
    subst h
    exact ⟨doc, root, xid, xmessage, h1, h2, h5, h6, h7, rfl⟩
  · rintro ⟨doc, root, xid, xmessage, h1, h2, h5, h6, h7, h8⟩
    simp only [h1, h2, h5, h6, h7, ← h8]

theorem decodeEventResponse_error (u : NameTables) (data : Bytes) (e : Error)
    (h : decodeEventResponse u data = .error e) : e = .ErrInvalidResponse := by
  unfold decodeEventResponse at h
  repeat' split at h
  all_goals first | (simp only [Except.error.injEq] at h; exact h.symm) | simp at h

/-- C9, amended: `decodeEventMessage` returns a message exactly when the input parses to a
document with an `event` element that has a `version` attribute of value `1` and child
elements `id`, `token`, `catgory` (the wire name of the category), `service` and `params`,
the text of `id` being an integer; the message holds that integer and the texts.  In every
other case it fails with `ErrInvalidEvent`.  `decodeEventResponse` returns a response exactly
when the input parses to a document with a `response` element with child elements `id`, whose
text is an integer, and `message`, and fails with `ErrInvalidResponse` otherwise; it does not
look at a version. -/
theorem strict_decoding (u : NameTables) (data : Bytes) :
    (∀ m, decodeEventMessage u data = .ok m ↔
      ∃ doc root xversion xid xtoken xcategory xservice xparams,
        ReadFromBytes u data = some doc ∧
        SelectElement doc (bytesOf "event") = some root ∧
        SelectAttr root (bytesOf "version") = some xversion ∧
        xversion.Value = bytesOf "1" ∧
        SelectElement root (bytesOf "id") = some xid ∧
        Atoi xid.Text = some m.ID ∧
        SelectElement root (bytesOf "token") = some xtoken ∧
        SelectElement root (bytesOf "catgory") = some xcategory ∧
        SelectElement root (bytesOf "service") = some xservice ∧
        SelectElement root (bytesOf "params") = some xparams ∧
        m.Token = xtoken.Text ∧ m.Category = xcategory.Text ∧
        m.Service = xservice.Text ∧ m.Params = xparams.Text) ∧
    ((∀ m, decodeEventMessage u data ≠ .ok m) →
      decodeEventMessage u data = .error .ErrInvalidEvent) ∧
    (∀ r, decodeEventResponse u data = .ok r ↔
      ∃ doc root xid xmessage,
        ReadFromBytes u data = some doc ∧
        SelectElement doc (bytesOf "response") = some root ∧
        SelectElement root (bytesOf "id") = some xid ∧
        Atoi xid.Text = some r.ID ∧
        SelectElement root (bytesOf "message") = some xmessage ∧
        r.Message = xmessage.Text) ∧
    ((∀ r, decodeEventResponse u data ≠ .ok r) →
      decodeEventResponse u data = .error .ErrInvalidResponse) := by
  refine ⟨decodeEventMessage_ok_iff u data, ?_, decodeEventResponse_ok_iff u data, ?_⟩
  · intro h
    cases hr : decodeEventMessage u data with
    | ok m => exact absurd hr (h m)
    | error e => rw [decodeEventMessage_error u data e hr]
  · intro h
    cases hr : decodeEventResponse u data with
    | ok m => exact absurd hr (h m)
    | error e => rw [decodeEventResponse_error u data e hr]

set_option maxRecDepth 100000 in
/-- C9 is false as stated: a response that declares the schema version `2` is decoded,
its version is never looked at. -/
theorem response_version_not_checked :
    ¬ ∃ u : NameTables, decodeEventResponse u
        (bytesOf "<?xml version=\"1.0\"?>\n<response version=\"2\">\n  <id>7</id>\n  <message><![CDATA[m]]></message>\n</response>\n") ≠
      .ok { ID := 7, Message := bytesOf "m" } := by
  rintro ⟨u, h⟩
  exact h rfl

/-- C1, amended: an event whose id is in the range of `int`, whose token, category and
service are XML character data without `<`, `&`, carriage return and `]]>`, and whose payload
is made of XML characters in UTF-8 without carriage return and without `]]>` (it may hold `<`
and `&`) is decoded from its envelope field by field, the payload byte for byte; the same holds
for a response and its message. -/
theorem envelope_round_trip (u : NameTables) (e : EventMessage) (r : EventResponse)
    (heid : -2 ^ 63 ≤ e.ID ∧ e.ID < 2 ^ 63)
    (ht : PlainText e.Token) (hc : PlainText e.Category) (hs : PlainText e.Service)
    (hp : CDataText e.Params)
    (hrid : -2 ^ 63 ≤ r.ID ∧ r.ID < 2 ^ 63) (hm : CDataText r.Message) :
    decodeEventMessage u e.toXML = .ok e ∧ decodeEventResponse u r.toXML = .ok r :=
  ⟨decodeEventMessage_toXML u e heid ht hc hs hp, decodeEventResponse_toXML u r hrid hm⟩

/-- C1, amended, at an event and a response whose payloads hold `<`, `&` and `]] >`. -/
theorem envelope_round_trip_witness :
    decodeEventMessage ⟨fun _ => false, fun _ => false⟩
        (EventMessage.toXML ⟨7, bytesOf "0a1b", bytesOf "math", bytesOf "sum", bytesOf "<a>&]] >"⟩) =
      .ok ⟨7, bytesOf "0a1b", bytesOf "math", bytesOf "sum", bytesOf "<a>&]] >"⟩ ∧
    decodeEventResponse ⟨fun _ => false, fun _ => false⟩
        (EventResponse.toXML ⟨7, bytesOf "<30>&"⟩) = .ok ⟨7, bytesOf "<30>&"⟩ :=
  envelope_round_trip ⟨fun _ => false, fun _ => false⟩
    ⟨7, bytesOf "0a1b", bytesOf "math", bytesOf "sum", bytesOf "<a>&]] >"⟩ ⟨7, bytesOf "<30>&"⟩
    (by decide) (by unfold PlainText; decide) (by unfold PlainText; decide)
    (by unfold PlainText; decide) (by unfold CDataText; decide) (by decide)
    (by unfold CDataText; decide)

set_option maxRecDepth 100000 in
/-- C1 is false as stated: the envelope of an event with the payload `]]>` is not decoded to
that event (the CDATA section ends at the payload, and decoding fails). -/
theorem envelope_cdata_end_not_decoded :
    ¬ ∃ u : NameTables,
      decodeEventMessage u (EventMessage.toXML ⟨1, bytesOf "t", bytesOf "c", bytesOf "s", bytesOf "]]>"⟩) =
        .ok ⟨1, bytesOf "t", bytesOf "c", bytesOf "s", bytesOf "]]>"⟩ := by
  rintro ⟨u, h⟩
  have e : decodeEventMessage u
      (EventMessage.toXML ⟨1, bytesOf "t", bytesOf "c", bytesOf "s", bytesOf "]]>"⟩) =
        .error .ErrInvalidEvent := rfl
  rw [e] at h
  exact absurd h (by simp)

/-! ## The calendar and the token of the day -/

theorem afterPings_append (env : Env) (target : Bytes) (a b : List AMQPDriver) : ∀ w,
    afterPings env target (a ++ b) w = afterPings env target b (afterPings env target a w) := by
  induction a with
  | nil => intro w; rfl
  | cons h a ih => intro w; simp [afterPings, ih]

theorem pingLoop_first (env : Env) (target : Bytes) (pre : List AMQPDriver) (h : AMQPDriver)
    (post : List AMQPDriver) : ∀ w, pingsFail env target pre w →
    (amqpSender.Ping env h target 3 (afterPings env target pre w)).1 = true →
    pingLoop env target (pre ++ h :: post) w = (some h, afterPings env target (pre ++ [h]) w) := by
  induction pre with
  | nil =>
    intro w _ hok
    simp only [afterPings] at hok
    simp only [List.nil_append, pingLoop, afterPings]
    rcases hp : amqpSender.Ping env h target 3 w with ⟨r, w1⟩
    rw [hp] at hok
    simp only at hok
    subst hok
    rfl
  | cons p pre ih =>
    intro w hf hok
    obtain ⟨h1, h2⟩ := hf
    simp only [afterPings] at hok
    simp only [List.cons_append, pingLoop, afterPings]
    rcases hp : amqpSender.Ping env p target 3 w with ⟨r, w1⟩
    rw [hp] at h1 h2 hok
    simp only at h1 h2 hok
    subst h1
    exact ih w1 h2 hok

theorem pingLoop_none (env : Env) (target : Bytes) (hosts : List AMQPDriver) : ∀ w,
    pingsFail env target hosts w →
    pingLoop env target hosts w = (none, afterPings env target hosts w) := by
  induction hosts with
  | nil => intro w _; rfl
  | cons p hosts ih =>
    intro w hf
    obtain ⟨h1, h2⟩ := hf
    simp only [pingLoop, afterPings]
    rcases hp : amqpSender.Ping env p target 3 w with ⟨r, w1⟩
    rw [hp] at h1 h2
    simp only at h1 h2
    subst h1
    exact ih w1 h2

theorem selectSender_ping (env : Env) (s : smartSender) (target : Bytes) (w : World) :
    s.selectSender env target true w =
      ((pingLoop env target (s.ready env w).1.senders (s.ready env w).2).1, (s.ready env w).1,
        (pingLoop env target (s.ready env w).1.senders (s.ready env w).2).2) := rfl

theorem LogGrows.refl (P : NetOp → Prop) (w : World) (g : Nat) :
    LogGrows P w { w with globalID := g } := ⟨[], by simp, by simp⟩

theorem LogGrows.trans {P : NetOp → Prop} {a b c : World} (h1 : LogGrows P a b)
    (h2 : LogGrows P b c) : LogGrows P a c := by
  obtain ⟨o1, e1, p1⟩ := h1
  obtain ⟨o2, e2, p2⟩ := h2
  refine ⟨o1 ++ o2, by rw [e2, e1, List.append_assoc], ?_⟩
  intro op hop
  rcases List.mem_append.1 hop with h | h
  · exact p1 op h
  · exact p2 op h

theorem LogGrows.weaken {P Q : NetOp → Prop} {a b : World} (h : LogGrows P a b)
    (hpq : ∀ op, P op → Q op) : LogGrows Q a b := by
  obtain ⟨o, e, p⟩ := h
  exact ⟨o, e, fun op hop => hpq op (p op hop)⟩

theorem logGrows_perform (P : NetOp → Prop) (env : Env) (op : NetOp) (w : World) (h : P op) :
    LogGrows P w (perform env op w).2 :=
  ⟨[op], rfl, by simpa using h⟩

theorem logGrows_call (P : NetOp → Prop) (env : Env) (d : AMQPDriver) (queue msg : Bytes)
    (timeout : Nat) (w : World)
    (hpub : ∀ exchange corrId replyTo, P (.publish d.host exchange queue corrId replyTo msg))
    (hother : ∀ op, sentMessage op = none → P op) :
    LogGrows P w (AMQPDriver.Call env d queue msg timeout w).2 := by
  unfold AMQPDriver.Call
  have h1 := logGrows_perform P env (.declareQueue d.host [] true) w (hother _ rfl)
  rcases hp1 : perform env (.declareQueue d.host [] true) w with ⟨r1, w1⟩
  rw [hp1] at h1
  cases r1 with
  | some e => exact h1
  | none =>
    simp only
    have h2 := logGrows_perform P env (.publish d.host d.config.ExchangeName queue
      (env.net.randString w1.log) (env.net.queueName w.log) msg) w1 (hpub _ _ _)
    rcases hp2 : perform env (.publish d.host d.config.ExchangeName queue
      (env.net.randString w1.log) (env.net.queueName w.log) msg) w1 with ⟨r2, w2⟩
    rw [hp2] at h2
    cases r2 with
    | some e => exact (h1.trans h2).trans (logGrows_perform P env _ w2 (hother _ rfl))
    | none =>
      simp only
      have h3 := logGrows_perform P env (.consume d.host (env.net.queueName w.log)) w2
        (hother _ rfl)
      rcases hp3 : perform env (.consume d.host (env.net.queueName w.log)) w2 with ⟨r3, w3⟩
      rw [hp3] at h3
      cases r3 with
      | some e =>
        exact ((h1.trans h2).trans h3).trans (logGrows_perform P env _ w3 (hother _ rfl))
      | none =>
        exact ((h1.trans h2).trans h3).trans (logGrows_perform P env _ w3 (hother _ rfl))

theorem noMessage_ping (env : Env) (s : AMQPDriver) (target : Bytes) (timeout : Nat) (w : World) :
    LogGrows NoMessage w (amqpSender.Ping env s target timeout w).2 := by
  unfold amqpSender.Ping
  rcases hc : createEventMessage w.globalID target [] [] with ⟨g, r⟩
  cases r with
  | error e => exact LogGrows.refl _ w g
  | ok qm =>
    obtain ⟨queue, m⟩ := qm
    simp only
    have h := (LogGrows.refl NoMessage w g).trans
      (logGrows_call NoMessage env s queue (bytesOf "PING") timeout { w with globalID := g }
        (fun _ _ _ => by simp [NoMessage, sentMessage]) (fun _ h => h))
    rcases hcall : AMQPDriver.Call env s queue (bytesOf "PING") timeout
      { w with globalID := g } with ⟨r, w'⟩
    rw [hcall] at h
    cases r <;> exact h

theorem noMessage_afterPings (env : Env) (target : Bytes) (hosts : List AMQPDriver) : ∀ w,
    LogGrows NoMessage w (afterPings env target hosts w) := by
  induction hosts with
  | nil => intro w; exact LogGrows.refl _ w w.globalID
  | cons h hosts ih =>
    intro w
    exact (noMessage_ping env h target 3 w).trans (ih _)

theorem messageOnlyTo_of_noMessage (host : Bytes) (op : NetOp) (h : NoMessage op) :
    MessageOnlyTo host op := by
  intro x hx
  rw [NoMessage] at h
  rw [h] at hx
  exact absurd hx (by simp)

theorem messageOnlyTo_publish (host exchange key corrId replyTo body : Bytes) :
    MessageOnlyTo host (.publish host exchange key corrId replyTo body) := by
  intro x hx
  simp only [sentMessage] at hx
  split at hx
  · exact absurd hx (by simp)
  · simp only [Option.some.injEq] at hx
    rw [← hx]

theorem messageOnlyTo_send (env : Env) (s : AMQPDriver) (target message : Bytes) (w : World) :
    LogGrows (MessageOnlyTo s.host) w (amqpSender.Send env s target message w).2 := by
  unfold amqpSender.Send
  simp only
  rcases hc : createEventMessage w.globalID target _ message with ⟨g, r⟩
  cases r with
  | error e => exact LogGrows.refl _ w g
  | ok qm =>
    obtain ⟨queue, m⟩ := qm
    exact (LogGrows.refl _ w g).trans
      (logGrows_perform _ env _ _ (messageOnlyTo_publish _ _ _ _ _ _))

theorem messageOnlyTo_call (env : Env) (s : AMQPDriver) (target message : Bytes) (timeout : Nat)
    (w : World) :
    LogGrows (MessageOnlyTo s.host) w (amqpSender.Call env s target message timeout w).2 := by
  unfold amqpSender.Call
  simp only
  rcases hc : createEventMessage w.globalID target _ message with ⟨g, r⟩
  cases r with
  | error e => exact LogGrows.refl _ w g
  | ok qm =>
    obtain ⟨queue, m⟩ := qm
    simp only
    have h := (LogGrows.refl (MessageOnlyTo s.host) w g).trans
      (logGrows_call (MessageOnlyTo s.host) env s queue m.toXML timeout { w with globalID := g }
        (fun _ _ _ => messageOnlyTo_publish _ _ _ _ _ _)
        (fun op h => messageOnlyTo_of_noMessage _ op h))
    rcases hcall : AMQPDriver.Call env s queue m.toXML timeout { w with globalID := g } with ⟨r, w'⟩
    rw [hcall] at h
    cases r with
    | error e => exact h
    | ok ret =>
      simp only
      cases decodeEventResponse env.u ret <;> exact h

/-- C4. Smart sender host selection: once the senders are there (`ready`), if the senders
`pre` do not answer their ping of three seconds and the sender `h` behind them does, `Send`
and `Call` return what the `Send` and `Call` of `h` return, in the world left by the pings of
`pre` and `h`, and every message (other than ping probes) they publish goes to the host of
`h`; if no sender answers, they return `ErrCannotConnectToServer` and the operations logged
are those of the pings, none of which carries a message.  The senders stay as they are when
there is one already. -/
theorem smart_sender_selection (env : Env) (s : smartSender) (target message : Bytes)
    (timeout : Nat) (w : World) :
    (∀ pre h post, (s.ready env w).1.senders = pre ++ h :: post →
      pingsFail env target pre (s.ready env w).2 →
      (amqpSender.Ping env h target 3 (afterPings env target pre (s.ready env w).2)).1 = true →
      s.Send env target message w =
        ((amqpSender.Send env h target message
            (afterPings env target (pre ++ [h]) (s.ready env w).2)).1, (s.ready env w).1,
          (amqpSender.Send env h target message
            (afterPings env target (pre ++ [h]) (s.ready env w).2)).2) ∧
      s.Call env target message timeout w =
        ((amqpSender.Call env h target message timeout
            (afterPings env target (pre ++ [h]) (s.ready env w).2)).1, (s.ready env w).1,
          (amqpSender.Call env h target message timeout
            (afterPings env target (pre ++ [h]) (s.ready env w).2)).2) ∧
      LogGrows (MessageOnlyTo h.host) (s.ready env w).2 (s.Send env target message w).2.2 ∧
      LogGrows (MessageOnlyTo h.host) (s.ready env w).2
        (s.Call env target message timeout w).2.2) ∧
    (pingsFail env target (s.ready env w).1.senders (s.ready env w).2 →
      s.Send env target message w =
        (some .ErrCannotConnectToServer, (s.ready env w).1,
          afterPings env target (s.ready env w).1.senders (s.ready env w).2) ∧
      s.Call env target message timeout w =
        (.error .ErrCannotConnectToServer, (s.ready env w).1,
          afterPings env target (s.ready env w).1.senders (s.ready env w).2) ∧
      LogGrows NoMessage (s.ready env w).2
        (afterPings env target (s.ready env w).1.senders (s.ready env w).2)) ∧
    (s.senders ≠ [] → s.ready env w = (s, w)) := by
  refine ⟨?_, ?_, ?_⟩
  · intro pre h post hs hf hok
    have hsel := selectSender_ping env s target w
    rw [hs, pingLoop_first env target pre h post _ hf hok] at hsel
    have e1 : s.Send env target message w =
        ((amqpSender.Send env h target message
            (afterPings env target (pre ++ [h]) (s.ready env w).2)).1, (s.ready env w).1,
          (amqpSender.Send env h target message
            (afterPings env target (pre ++ [h]) (s.ready env w).2)).2) := by
      simp only [smartSender.Send, hsel]
    have e2 : s.Call env target message timeout w =
        ((amqpSender.Call env h target message timeout
            (afterPings env target (pre ++ [h]) (s.ready env w).2)).1, (s.ready env w).1,
          (amqpSender.Call env h target message timeout
            (afterPings env target (pre ++ [h]) (s.ready env w).2)).2) := by
      simp only [smartSender.Call, hsel]
    have hp := (noMessage_afterPings env target (pre ++ [h]) (s.ready env w).2).weaken
      (messageOnlyTo_of_noMessage h.host)
    refine ⟨e1, e2, ?_, ?_⟩
    · rw [e1]
      exact hp.trans (messageOnlyTo_send env h target message _)
    · rw [e2]
      exact hp.trans (messageOnlyTo_call env h target message timeout _)
  · intro hf
    have hsel := selectSender_ping env s target w
    rw [pingLoop_none env target _ _ hf] at hsel
    refine ⟨?_, ?_, noMessage_afterPings env target _ _⟩
    · simp only [smartSender.Send, hsel]
    · simp only [smartSender.Call, hsel]
  · intro hne
    unfold smartSender.ready
    have : s.senders.length ≠ 0 := by
      intro h
      exact hne (List.length_eq_zero.1 h)
    simp [this]

set_option maxRecDepth 100000 in
/-- C4, at three hosts of which only the second answers the ping: `Call` is the `Call` of the
second sender, made after the pings of the first and the second. -/
theorem smart_sender_selection_witness :
    (NewSender threeHostConfig).Call threeHostEnv (bytesOf "node.math.sum") (bytesOf "[10,20]") 5
        ⟨0, []⟩ =
      ((amqpSender.Call threeHostEnv (threeHostDriver "h2") (bytesOf "node.math.sum")
          (bytesOf "[10,20]") 5
          (afterPings threeHostEnv (bytesOf "node.math.sum")
            [threeHostDriver "h1", threeHostDriver "h2"]
            ((NewSender threeHostConfig).ready threeHostEnv ⟨0, []⟩).2)).1,
        ((NewSender threeHostConfig).ready threeHostEnv ⟨0, []⟩).1,
        (amqpSender.Call threeHostEnv (threeHostDriver "h2") (bytesOf "node.math.sum")
          (bytesOf "[10,20]") 5
          (afterPings threeHostEnv (bytesOf "node.math.sum")
            [threeHostDriver "h1", threeHostDriver "h2"]
            ((NewSender threeHostConfig).ready threeHostEnv ⟨0, []⟩).2)).2) :=
  ((smart_sender_selection threeHostEnv (NewSender threeHostConfig) (bytesOf "node.math.sum")
    (bytesOf "[10,20]") 5 ⟨0, []⟩).1 [threeHostDriver "h1"] (threeHostDriver "h2")
    [threeHostDriver "h3"] rfl ⟨rfl, trivial⟩ rfl).2.1

set_option maxRecDepth 100000 in
/-- With three hosts of which only the second answers the ping, `Call` returns the response of
the second host and the request is published to the second host only. -/
theorem smart_sender_three_hosts :
    ((NewSender threeHostConfig).Call threeHostEnv (bytesOf "node.math.sum") (bytesOf "[10,20]") 5
        ⟨0, []⟩).1 = .ok (bytesOf "30") ∧
    (((NewSender threeHostConfig).Call threeHostEnv (bytesOf "node.math.sum") (bytesOf "[10,20]") 5
        ⟨0, []⟩).2.2.log.filterMap sentMessage).map (·.1) = [bytesOf "h2"] := by
  decide

/-! ## The response handle -/

theorem amqpResponse.call_sended (env : Env) (r : amqpResponse) (c : ResponseCall) (w : World)
    (h : r.sended = true) : r.call env c w = (some .ErrAlreadySend, r, w) := by
  cases c <;> simp [amqpResponse.call, amqpResponse.SendString, amqpResponse.Send, h]

theorem amqpResponse.call_ok (env : Env) (r : amqpResponse) (c : ResponseCall) (w : World)
    (h : (r.call env c w).1 = none) :
    r.sended = false ∧ (r.call env c w).2.1.sended = true ∧
      ∃ op, (r.call env c w).2.2.log = w.log ++ [op] := by
  cases c <;>
  · simp only [amqpResponse.call, amqpResponse.SendString, amqpResponse.Send, perform] at h ⊢
    by_cases hs : r.sended = true
    · simp [hs] at h
    · simp only [hs, Bool.false_eq_true, if_false] at h ⊢
      split at h
      · next w1 heq =>
        simp only [Prod.mk.injEq] at heq
        obtain ⟨_, rfl⟩ := heq
        exact ⟨trivial, rfl, _, rfl⟩
      · simp at h

theorem amqpResponse.calls_cons (env : Env) (c : ResponseCall) (cs : List ResponseCall)
    (r : amqpResponse) (w : World) :
    amqpResponse.calls env (c :: cs) r w =
      ((r.call env c w).1 :: (amqpResponse.calls env cs (r.call env c w).2.1
          (r.call env c w).2.2).1,
        (amqpResponse.calls env cs (r.call env c w).2.1 (r.call env c w).2.2).2) := rfl

theorem amqpResponse.calls_sended (env : Env) (cs : List ResponseCall) (r : amqpResponse)
    (w : World) (h : r.sended = true) :
    amqpResponse.calls env cs r w = (List.replicate cs.length (some .ErrAlreadySend), r, w) := by
  induction cs with
  | nil => rfl
  | cons c cs ih =>
    rw [amqpResponse.calls_cons, amqpResponse.call_sended env r c w h, ih]
    rfl

theorem amqpResponse.calls_append (env : Env) (a b : List ResponseCall) : ∀ (r : amqpResponse)
    (w : World),
    amqpResponse.calls env (a ++ b) r w =
      ((amqpResponse.calls env a r w).1 ++
          (amqpResponse.calls env b (amqpResponse.calls env a r w).2.1
            (amqpResponse.calls env a r w).2.2).1,
        (amqpResponse.calls env b (amqpResponse.calls env a r w).2.1
            (amqpResponse.calls env a r w).2.2).2) := by
  induction a with
  | nil => intro r w; rfl
  | cons c a ih =>
    intro r w
    rw [List.cons_append, amqpResponse.calls_cons, amqpResponse.calls_cons, ih]
    rfl

theorem amqpResponse.calls_count (env : Env) (cs : List ResponseCall) : ∀ (r : amqpResponse)
    (w : World), ((amqpResponse.calls env cs r w).1.count none) ≤ 1 ∧
      (r.sended = true → (amqpResponse.calls env cs r w).1.count none = 0) := by
  induction cs with
  | nil => intro r w; simp [amqpResponse.calls]
  | cons c cs ih =>
    intro r w
    by_cases hs : r.sended = true
    · rw [amqpResponse.calls_sended env _ r w hs]
      simp [List.count_replicate]
    · rw [amqpResponse.calls_cons]
      cases he : (r.call env c w).1 with
      | none =>
        obtain ⟨_, h2, _⟩ := amqpResponse.call_ok env r c w he
        have := (ih (r.call env c w).2.1 (r.call env c w).2.2).2 h2
        simp [this, hs]
      | some err =>
        have := (ih (r.call env c w).2.1 (r.call env c w).2.2).1
        simp [this, hs]

/-- C5. Single-use response guard: in every sequence of `Send` and `SendString` calls on a
response handle at most one call returns no error, that is, at most one reply is
transmitted; and once a call has gone through, every later call returns `ErrAlreadySend`
and leaves the handle and the world, the log of published messages included, as that call
left them. -/
theorem response_single_use (env : Env) (pre : List ResponseCall) (c : ResponseCall)
    (post : List ResponseCall) (r : amqpResponse) (w : World) :
    ((amqpResponse.calls env (pre ++ c :: post) r w).1.count none ≤ 1) ∧
    (((amqpResponse.calls env pre r w).2.1.call env c (amqpResponse.calls env pre r w).2.2).1 = none →
      amqpResponse.calls env (pre ++ c :: post) r w =
        ((amqpResponse.calls env pre r w).1 ++ none ::
            List.replicate post.length (some .ErrAlreadySend),
          ((amqpResponse.calls env pre r w).2.1.call env c (amqpResponse.calls env pre r w).2.2).2)) := by
  refine ⟨(amqpResponse.calls_count env _ r w).1, ?_⟩
  intro h
  obtain ⟨_, h2, _⟩ := amqpResponse.call_ok env _ c _ h
  rw [amqpResponse.calls_append, amqpResponse.calls_cons, h,
    amqpResponse.calls_sended env post _ _ h2]

/-! ## The worker -/

theorem RPCType_ne_MessageType : ¬ RPCType = MessageType := by decide

theorem worker.processMessage_trace {σ : Type} (w : worker σ) (jobj : job) (st : WorkerState σ) :
    (w.processMessage jobj st).trace.map (·.call) =
      st.trace.map (·.call) ++ (specHandlerCall jobj).toList := by
  unfold worker.processMessage specHandlerCall
  by_cases h1 : jobj.Type_ = MessageType
  · simp [h1]
  · by_cases h2 : jobj.Type_ = RPCType
    · simp [h2, RPCType_ne_MessageType]
    · simp [h1, h2]

theorem worker.Run_trace {σ : Type} (w : worker σ) (queue : List job) : ∀ st : WorkerState σ,
    (w.Run queue st).trace.map (·.call) =
      st.trace.map (·.call) ++ queue.filterMap specHandlerCall := by
  induction queue with
  | nil => intro st; simp [worker.Run]
  | cons j queue ih =>
    intro st
    have h := ih (w.processMessage j st)
    simp only [worker.Run, List.foldl_cons] at h ⊢
    rw [h, worker.processMessage_trace, List.append_assoc]
    congr 1
    cases hj : specHandlerCall j <;> simp [List.filterMap_cons, hj]

theorem specHandlerCall_isSome (jobj : job)
    (h : jobj.Type_ = MessageType ∨ jobj.Type_ = RPCType) :
    ∃ c, specHandlerCall jobj = some c := by
  unfold specHandlerCall
  rcases h with h | h
  · simp [h]
  · simp [h, RPCType_ne_MessageType]

/-- What `processMessage` does with one job: the handler call of the job, if it has one, is
invoked from the state and the world the worker is in; the worker goes on from what the
handler left, and the call is recorded with whether it ended in a panic. -/
theorem worker.processMessage_spec {σ : Type} (w : worker σ) (j : job) (s : WorkerState σ) :
    w.processMessage j s = specRun w.service (specHandlerCall j).toList s := by
  unfold worker.processMessage specHandlerCall
  by_cases h1 : j.Type_ = MessageType
  · simp only [h1, if_true, Option.toList, specRun, HandlerCall.invoke]
  · by_cases h2 : j.Type_ = RPCType
    · simp only [h2, RPCType_ne_MessageType, if_true, if_false, Option.toList, specRun,
        HandlerCall.invoke]
    · simp only [h1, h2, if_false, Option.toList, specRun]

/-- Running the calls `a` and then `b` is running `a ++ b`. -/
theorem specRun_append {σ : Type} (srv : Service σ) (a b : List HandlerCall) :
    ∀ st : WorkerState σ, specRun srv (a ++ b) st = specRun srv b (specRun srv a st) := by
  induction a with
  | nil => intro st; rfl
  | cons c a ih =>
    intro st
    rw [List.cons_append, specRun, specRun, ih]

/-- The run of a worker through a queue is the run of the handler calls of its jobs. -/
theorem worker.Run_spec {σ : Type} (w : worker σ) (queue : List job) :
    ∀ st : WorkerState σ,
    w.Run queue st = specRun w.service (queue.filterMap specHandlerCall) st := by
  induction queue with
  | nil => intro st; rfl
  | cons j queue ih =>
    intro st
    have h := ih (w.processMessage j st)
    simp only [worker.Run, List.foldl_cons] at h ⊢
    rw [h, worker.processMessage_spec, ← specRun_append]
    congr 1
    cases hj : specHandlerCall j <;> simp [List.filterMap_cons, hj]

/-- C7. Worker serial FIFO processing with fault containment.  The run of a worker through a
queue is the run `specRun` of its service over the handler calls of the jobs: the handler of
each job is invoked exactly once, in queue order and one at a time, each from the state and the
world the handler before it left, whether that one returned or panicked.  For a Message job
`processMessage` invokes `OnMessage` of the worker's service, for an RPC job `OnCall` with a
fresh unsent response, the request carrying the `Params` of the event; the worker goes on with
the state and the world the handler left and records the call with whether it ended in a
panic; a job of another type invokes nothing.  After any job of the queue, whatever its
handler did, the handlers of all later jobs are invoked in the same way.  The handler calls
recorded are those of the jobs, one for each job in queue order, and running a queue is
running its first part and then, from the state that leaves behind, the rest. -/
theorem worker_serial_processing {σ : Type} (w : worker σ) (queue : List job)
    (st : WorkerState σ) :
    w.Run queue st = specRun w.service (queue.filterMap specHandlerCall) st ∧
    (∀ j s,
      (j.Type_ = MessageType →
        w.processMessage j s =
          { user := (w.service.OnMessage { driver := j.Driver, msg := j.Event.Params }
              s.user s.world).state
            world := (w.service.OnMessage { driver := j.Driver, msg := j.Event.Params }
              s.user s.world).world
            trace := s.trace ++
              [{ call := .OnMessage { driver := j.Driver, msg := j.Event.Params }
                 recovered := (w.service.OnMessage { driver := j.Driver, msg := j.Event.Params }
                   s.user s.world).panicked }] }) ∧
      (j.Type_ = RPCType →
        w.processMessage j s =
          { user := (w.service.OnCall { driver := j.Driver, msg := j.Event.Params }
              { driver := j.Driver, delivery := j.Message, event := j.Event, sended := false }
              s.user s.world).state
            world := (w.service.OnCall { driver := j.Driver, msg := j.Event.Params }
              { driver := j.Driver, delivery := j.Message, event := j.Event, sended := false }
              s.user s.world).world
            trace := s.trace ++
              [{ call := .OnCall { driver := j.Driver, msg := j.Event.Params }
                   { driver := j.Driver, delivery := j.Message, event := j.Event,
                     sended := false }
                 recovered := (w.service.OnCall { driver := j.Driver, msg := j.Event.Params }
                   { driver := j.Driver, delivery := j.Message, event := j.Event,
                     sended := false }
                   s.user s.world).panicked }] }) ∧
      (j.Type_ ≠ MessageType → j.Type_ ≠ RPCType → w.processMessage j s = s)) ∧
    (∀ pre j post, queue = pre ++ j :: post →
      w.Run queue st =
        specRun w.service (post.filterMap specHandlerCall)
          (w.processMessage j (w.Run pre st))) ∧
    (w.Run queue st).trace.map (·.call) =
      st.trace.map (·.call) ++ queue.filterMap specHandlerCall ∧
    ((∀ j ∈ queue, j.Type_ = MessageType ∨ j.Type_ = RPCType) →
      queue.filterMap specHandlerCall = queue.map (fun j =>
        if j.Type_ = MessageType then
          HandlerCall.OnMessage { driver := j.Driver, msg := j.Event.Params }
        else
          HandlerCall.OnCall { driver := j.Driver, msg := j.Event.Params }
            { driver := j.Driver, delivery := j.Message, event := j.Event, sended := false }) ∧
      (w.Run queue st).trace.length = st.trace.length + queue.length) ∧
    (∀ pre post, queue = pre ++ post → w.Run queue st = w.Run post (w.Run pre st)) := by
  have ht := worker.Run_trace w queue st
  refine ⟨worker.Run_spec w queue st, ?_, ?_, ht, ?_, ?_⟩
  · intro j s
    refine ⟨?_, ?_, ?_⟩
    · intro h1
      unfold worker.processMessage
      simp only [h1, if_true]
    · intro h2
      unfold worker.processMessage
      simp only [h2, RPCType_ne_MessageType, if_true, if_false]
    · intro h1 h2
      unfold worker.processMessage
      simp only [h1, h2, if_false]
  · rintro pre j post rfl
    rw [← worker.Run_spec]
    simp [worker.Run, List.foldl_append]
  · intro hq
    have hmap : queue.filterMap specHandlerCall = queue.map (fun j =>
        if j.Type_ = MessageType then
          HandlerCall.OnMessage { driver := j.Driver, msg := j.Event.Params }
        else
          HandlerCall.OnCall { driver := j.Driver, msg := j.Event.Params }
            { driver := j.Driver, delivery := j.Message, event := j.Event, sended := false }) := by
      clear ht
      induction queue with
      | nil => rfl
      | cons j queue ih =>
        have hj := hq j (by simp)
        have ih' := ih (fun k hk => hq k (by simp [hk]))
        rw [List.map_cons, ← ih']
        unfold specHandlerCall
        rcases hj with h | h
        · simp [h, List.filterMap_cons]
        · simp [h, RPCType_ne_MessageType, List.filterMap_cons]
    refine ⟨hmap, ?_⟩
    have hl := congrArg List.length ht
    rw [hmap] at hl
    simpa using hl
  · rintro pre post rfl
    simp [worker.Run, List.foldl_append]

/-- A worker of the counting service has seen as many handler calls as it was given jobs. -/
theorem worker_counts_every_job (name : Bytes) (queue : List job)
    (hq : ∀ j ∈ queue, j.Type_ = MessageType ∨ j.Type_ = RPCType) :
    ∀ st : WorkerState Nat,
    ((newWorker name countingService).Run queue st).user = st.user + queue.length := by
  induction queue with
  | nil => intro st; rfl
  | cons j queue ih =>
    intro st
    have h := ih (fun k hk => hq k (by simp [hk])) ((newWorker name countingService).processMessage j st)
    simp only [worker.Run, List.foldl_cons] at h ⊢
    rw [h]
    have hj := hq j (by simp)
    have : ((newWorker name countingService).processMessage j st).user = st.user + 1 := by
      unfold worker.processMessage
      rcases hj with h1 | h2
      · simp only [h1, if_true]
        rfl
      · simp only [h2, RPCType_ne_MessageType, if_true, if_false]
        rfl
    rw [this, List.length_cons]
    omega

/-! ## The receiver -/

theorem receiver.dispatch_cases {σ : Type} (env : Env) (r : receiver σ) (jobType : Int)
    (a : Arrival) (st : ReceiverState) :
    (∃ e, r.dispatch env jobType a st = (some e, st) ∧ loggedOnly e = true ∧
      (e = .ErrInvalidEvent ∧ (∀ m, decodeEventMessage env.u a.msg.Body ≠ .ok m) ∨
       ∃ event, decodeEventMessage env.u a.msg.Body = .ok event ∧
        (e = .ErrInvalidToken ∧
          validateToken env.sha1 r.server.config env.loc a.clock event.Token = false ∨
         e = .ErrServiceNotFound ∧
          validateToken env.sha1 r.server.config env.loc a.clock event.Token = true ∧
          r.server.workers (workerKey event.Category event.Service) = none))) ∨
    (∃ event, decodeEventMessage env.u a.msg.Body = .ok event ∧
      validateToken env.sha1 r.server.config env.loc a.clock event.Token = true ∧
      (r.server.workers (workerKey event.Category event.Service)).isSome = true ∧
      r.dispatch env jobType a st =
        (none, { st with
          pushed := st.pushed ++
            [(workerKey event.Category event.Service,
              { Type_ := jobType, Driver := r.driver, Message := a.msg, Event := event })] })) := by
  unfold receiver.dispatch
  cases hd : decodeEventMessage env.u a.msg.Body with
  | error e =>
    left
    have he := decodeEventMessage_error _ _ _ hd
    subst he
    exact ⟨_, rfl, rfl, Or.inl ⟨rfl, fun m => by simp⟩⟩
  | ok event =>
    simp only
    cases hv : validateToken env.sha1 r.server.config env.loc a.clock event.Token with
    | false =>
      left
      exact ⟨.ErrInvalidToken, by simp [hv], rfl, Or.inr ⟨event, rfl, Or.inl ⟨rfl, hv⟩⟩⟩
    | true =>
      cases hw : r.server.workers (workerKey event.Category event.Service) with
      | none =>
        left
        exact ⟨.ErrServiceNotFound, by simp [hv, Server.selectWorker, hw], rfl,
          Or.inr ⟨event, rfl, Or.inr ⟨rfl, hv, hw⟩⟩⟩
      | some wk =>
        right
        exact ⟨event, rfl, hv, by rw [hw]; rfl, by simp [hv, Server.selectWorker, hw]⟩

theorem receiver.dispatch_spec {σ : Type} (env : Env) (r : receiver σ) (a : Arrival)
    (st : ReceiverState) (hping : a.isPing = false) (jobType : Int)
    (hty : jobType = if a.msg.ReplyTo ≠ [] then RPCType else MessageType) :
    (r.dispatch env jobType a st).2 =
        { st with pushed := st.pushed ++ (specPushedJob env r a).toList } ∧
      ((r.dispatch env jobType a st).1 = none ∨
        ∃ e, (r.dispatch env jobType a st).1 = some e ∧ loggedOnly e = true) := by
  unfold specPushedJob
  rw [hping]
  simp only [Bool.false_eq_true, if_false]
  rcases receiver.dispatch_cases env r jobType a st with
    ⟨e, hd, hl, ⟨_, hno⟩ | ⟨event, hdec, ⟨_, hv⟩ | ⟨_, hv, hw⟩⟩⟩ | ⟨event, hdec, hv, hw, hd⟩
  · rw [hd]
    refine ⟨?_, Or.inr ⟨e, rfl, hl⟩⟩
    cases hdec : decodeEventMessage env.u a.msg.Body with
    | error _ => simp
    | ok m => exact absurd hdec (hno m)
  · rw [hd, hdec]
    exact ⟨by simp [hv], Or.inr ⟨e, rfl, hl⟩⟩
  · rw [hd, hdec]
    exact ⟨by simp [hv, hw], Or.inr ⟨e, rfl, hl⟩⟩
  · rw [hd, hdec]
    exact ⟨by simp [hv, hw, hty], Or.inl rfl⟩

theorem receiver.receiveLoop_spec {σ : Type} (env : Env) (r : receiver σ)
    (arrivals : List Arrival) : ∀ st : ReceiverState, (∀ a ∈ arrivals, a.isPing = false) →
    (r.receiveLoop env arrivals st).1 = none ∧
    (r.receiveLoop env arrivals st).2.pushed =
      st.pushed ++ arrivals.filterMap (specPushedJob env r) := by
  induction arrivals with
  | nil => intro st _; simp [receiver.receiveLoop]
  | cons a arrivals ih =>
    intro st hp
    have hpa := hp a (by simp)
    have ih' := fun s => ih s (fun b hb => hp b (by simp [hb]))
    have hfm : (a :: arrivals).filterMap (specPushedJob env r) =
        (specPushedJob env r a).toList ++ arrivals.filterMap (specPushedJob env r) := by
      cases h : specPushedJob env r a <;> simp [List.filterMap_cons, h]
    rw [hfm, receiver.receiveLoop]
    by_cases hr : a.msg.ReplyTo ≠ []
    · have hb : ¬ a.msg.Body = bytesOf "PING" := by
        intro hb
        simp [Arrival.isPing, hr, hb] at hpa
      rw [if_pos hr, if_neg hb]
      obtain ⟨h2, h1⟩ := receiver.dispatch_spec env r a
        { st with world := (perform env (.ack r.driver.host) st.world).2 } hpa RPCType
        (by simp [hr])
      unfold receiver.onCall
      rcases hd : r.dispatch env RPCType a
        { st with world := (perform env (.ack r.driver.host) st.world).2 } with ⟨e, st2⟩
      rw [hd] at h1 h2
      simp only at h1 h2
      subst h2
      rcases h1 with h1 | ⟨e', h1, hl⟩
      · subst h1
        have hih := ih' { world := (perform env (.ack r.driver.host) st.world).2,
                          pushed := st.pushed ++ (specPushedJob env r a).toList }
        exact ⟨hih.1, by rw [hih.2, List.append_assoc]⟩
      · subst h1
        simp only [hl, if_true]
        have hih := ih' { world := (perform env (.ack r.driver.host) st.world).2,
                          pushed := st.pushed ++ (specPushedJob env r a).toList }
        exact ⟨hih.1, by rw [hih.2, List.append_assoc]⟩
    · rw [if_neg hr]
      obtain ⟨h2, h1⟩ := receiver.dispatch_spec env r a
        { st with world := (perform env (.ack r.driver.host) st.world).2 } hpa MessageType
        (by simp [hr])
      unfold receiver.onMessage
      rcases hd : r.dispatch env MessageType a
        { st with world := (perform env (.ack r.driver.host) st.world).2 } with ⟨e, st2⟩
      rw [hd] at h1 h2
      simp only at h1 h2
      subst h2
      rcases h1 with h1 | ⟨e', h1, hl⟩
      · subst h1
        have hih := ih' { world := (perform env (.ack r.driver.host) st.world).2,
                          pushed := st.pushed ++ (specPushedJob env r a).toList }
        exact ⟨hih.1, by rw [hih.2, List.append_assoc]⟩
      · subst h1
        simp only [hl, if_true]
        have hih := ih' { world := (perform env (.ack r.driver.host) st.world).2,
                          pushed := st.pushed ++ (specPushedJob env r a).toList }
        exact ⟨hih.1, by rw [hih.2, List.append_assoc]⟩

/-- One turn of the loop of `receiveMessages` on a delivery that is no ping probe: the
delivery is acknowledged, the job of `specPushedJob` is pushed if there is one, and the
loop goes on with the deliveries behind it. -/
theorem receiver.receiveLoop_step {σ : Type} (env : Env) (r : receiver σ) (a : Arrival)
    (rest : List Arrival) (st : ReceiverState) (hpa : a.isPing = false) :
    r.receiveLoop env (a :: rest) st =
      r.receiveLoop env rest
        { world := (perform env (.ack r.driver.host) st.world).2,
          pushed := st.pushed ++ (specPushedJob env r a).toList } := by
  rw [receiver.receiveLoop]
  by_cases hr : a.msg.ReplyTo ≠ []
  · have hb : ¬ a.msg.Body = bytesOf "PING" := by
      intro hb
      simp [Arrival.isPing, hr, hb] at hpa
    rw [if_pos hr, if_neg hb]
    obtain ⟨h2, h1⟩ := receiver.dispatch_spec env r a
      { st with world := (perform env (.ack r.driver.host) st.world).2 } hpa RPCType
      (by simp [hr])
    unfold receiver.onCall
    rcases hd : r.dispatch env RPCType a
      { st with world := (perform env (.ack r.driver.host) st.world).2 } with ⟨e, st2⟩
    rw [hd] at h1 h2
    simp only at h1 h2
    subst h2
    rcases h1 with h1 | ⟨e', h1, hl⟩
    · subst h1
      rfl
    · subst h1
      simp only [hl, if_true]
  · rw [if_neg hr]
    obtain ⟨h2, h1⟩ := receiver.dispatch_spec env r a
      { st with world := (perform env (.ack r.driver.host) st.world).2 } hpa MessageType
      (by simp [hr])
    unfold receiver.onMessage
    rcases hd : r.dispatch env MessageType a
      { st with world := (perform env (.ack r.driver.host) st.world).2 } with ⟨e, st2⟩
    rw [hd] at h1 h2
    simp only at h1 h2
    subst h2
    rcases h1 with h1 | ⟨e', h1, hl⟩
    · subst h1
      rfl
    · subst h1
      simp only [hl, if_true]

/-- C6. Receiver error policy: the only errors `onCall` and `onMessage` return are
`ErrInvalidEvent`, `ErrInvalidToken` and `ErrServiceNotFound`, and when one of them returns an
error it has pushed no job.  On deliveries none of which is a ping probe the loop of
`receiveMessages` goes through every delivery and returns nil, and the jobs it has pushed are,
in order of arrival, those of `specPushedJob`: one for a delivery exactly when its body
decodes, its token validates and a worker is registered under `category.service`, pushed to
that worker, of kind RPC when the delivery has a reply address and Message otherwise.  The
same holds of `receiveMessages` itself once `Consume` has succeeded.  Among any deliveries,
ping probes included, a turn of the loop on one that is no ping probe pushes the job of
`specPushedJob`, if there is one, and goes on with the next delivery. -/
theorem receiver_error_policy {σ : Type} (env : Env) (r : receiver σ) (arrivals : List Arrival)
    (st : ReceiverState) (hp : ∀ a ∈ arrivals, a.isPing = false) :
    (∀ a s e, (r.onCall env a s).1 = some e ∨ (r.onMessage env a s).1 = some e →
      e = .ErrInvalidEvent ∨ e = .ErrInvalidToken ∨ e = .ErrServiceNotFound) ∧
    (∀ a s, ((r.onCall env a s).1 ≠ none → (r.onCall env a s).2 = s) ∧
      ((r.onMessage env a s).1 ≠ none → (r.onMessage env a s).2 = s)) ∧
    (r.receiveLoop env arrivals st).1 = none ∧
    (r.receiveLoop env arrivals st).2.pushed =
      st.pushed ++ arrivals.filterMap (specPushedJob env r) ∧
    (env.net.fails st.world.log (.consume r.driver.host r.driver.config.NodeName) = none →
      (r.receiveMessages env arrivals st).1 = none ∧
      (r.receiveMessages env arrivals st).2.pushed =
        st.pushed ++ arrivals.filterMap (specPushedJob env r)) ∧
    (∀ a rest s, a.isPing = false →
      r.receiveLoop env (a :: rest) s =
        r.receiveLoop env rest
          { world := (perform env (.ack r.driver.host) s.world).2,
            pushed := s.pushed ++ (specPushedJob env r a).toList }) := by
  have key : ∀ (ty : Int) (a : Arrival) (s : ReceiverState),
      (∀ e, (r.dispatch env ty a s).1 = some e →
        e = .ErrInvalidEvent ∨ e = .ErrInvalidToken ∨ e = .ErrServiceNotFound) ∧
      ((r.dispatch env ty a s).1 ≠ none → (r.dispatch env ty a s).2 = s) := by
    intro ty a s
    have hlog : ∀ e : Error, loggedOnly e = true →
        e = .ErrInvalidEvent ∨ e = .ErrInvalidToken ∨ e = .ErrServiceNotFound := by
      intro e he
      cases e <;> simp_all [loggedOnly]
    rcases receiver.dispatch_cases env r ty a s with ⟨e, hd, hl, _⟩ | ⟨_, _, _, _, hd⟩
    · rw [hd]
      refine ⟨?_, fun _ => rfl⟩
      intro e2 h
      have h2 : e = e2 := Option.some.inj h
      exact h2 ▸ hlog e hl
    · rw [hd]
      exact ⟨fun e2 h => (by cases h), fun h => absurd rfl h⟩
  refine ⟨?_, ?_, (receiver.receiveLoop_spec env r arrivals st hp).1,
    (receiver.receiveLoop_spec env r arrivals st hp).2, ?_,
    fun a rest s h => receiver.receiveLoop_step env r a rest s h⟩
  · intro a s e h
    rcases h with h | h
    · exact (key RPCType a s).1 e h
    · exact (key MessageType a s).1 e h
  · intro a s
    exact ⟨(key RPCType a s).2, (key MessageType a s).2⟩
  · intro hc
    unfold receiver.receiveMessages
    simp only [perform, hc]
    exact receiver.receiveLoop_spec env r arrivals _ hp

set_option maxRecDepth 100000 in
/-- The error policy on four deliveries: an RPC, a body that is no envelope, an RPC for an
unregistered service and a one-way message. -/
theorem receiver_error_policy_witness :
    (sampleReceiver.receiveLoop threeHostEnv sampleArrivals ⟨⟨0, []⟩, []⟩).1 = none ∧
    (sampleReceiver.receiveLoop threeHostEnv sampleArrivals ⟨⟨0, []⟩, []⟩).2.pushed =
      [] ++ sampleArrivals.filterMap (specPushedJob threeHostEnv sampleReceiver) :=
  ⟨(receiver_error_policy threeHostEnv sampleReceiver sampleArrivals ⟨⟨0, []⟩, []⟩
      (by decide)).2.2.1,
    (receiver_error_policy threeHostEnv sampleReceiver sampleArrivals ⟨⟨0, []⟩, []⟩
      (by decide)).2.2.2.1⟩

set_option maxRecDepth 100000 in
/-- Of the four sample deliveries the first is pushed as an RPC job and the last as a
Message job, both to the worker `math.sum`; the other two are dropped and the loop returns
nil. -/
theorem receiver_sample_run :
    (sampleReceiver.receiveLoop threeHostEnv sampleArrivals ⟨⟨0, []⟩, []⟩).1 = none ∧
    (sampleReceiver.receiveLoop threeHostEnv sampleArrivals ⟨⟨0, []⟩, []⟩).2.pushed.map
        (fun p => (p.1, p.2.Type_, p.2.Message.ReplyTo)) =
      [(bytesOf "math.sum", RPCType, bytesOf "amq.gen-1"), (bytesOf "math.sum", MessageType, [])] := by
  decide

/-- A worker whose handler panics on the first of two jobs recovers and processes the
second. -/
theorem worker_fault_contained :
    ((newWorker (bytesOf "math.sum") panicOnBoom).Run [sampleJob "boom", sampleJob "fine"]
        ⟨0, ⟨0, []⟩, []⟩).trace.map (·.recovered) = [true, false] ∧
    ((newWorker (bytesOf "math.sum") panicOnBoom).Run [sampleJob "boom", sampleJob "fine"]
        ⟨0, ⟨0, []⟩, []⟩).user = 2 := by
  decide

/-! ## The order of the senders -/

/-- The senders made by `initializeSenders` are in configured host order: their hosts
are a sublist of `config.Hosts`, and each carries the configuration. -/
theorem dialHosts_host_order (env : Env) (config : Config) (hosts : List Bytes) (w : World) :
    List.Sublist ((dialHosts env config hosts w).1.map (·.host)) hosts ∧
    ∀ d ∈ (dialHosts env config hosts w).1, d.config = config := by
  induction hosts generalizing w with
  | nil => exact ⟨List.Sublist.slnil, fun d hd => by cases hd⟩
  | cons host hosts ih =>
    unfold dialHosts
    simp only
    cases hd : AMQPDriver.Dial env { host := host, config := config } w with
    | mk e w1 =>
      cases e with
      | none =>
        simp only [List.map_cons]
        refine ⟨List.Sublist.cons₂ _ (ih w1).1, ?_⟩
        intro d hd
        rcases List.mem_cons.1 hd with h | h
        · rw [h]
        · exact (ih w1).2 d h
      | some e =>
        simp only
        exact ⟨List.Sublist.cons _ (ih w1).1, (ih w1).2⟩

/-- The hosts of the senders of an initialized smart sender are a sublist of the
configured hosts. -/
theorem initializeSenders_host_order (env : Env) (s : smartSender) (w : World) :
    List.Sublist ((s.initializeSenders env w).1.senders.map (·.host)) s.config.Hosts :=
  dialHosts_host_order env s.config s.config.Hosts w |>.1

/-! ## Malformed targets on the smart sender -/

/-- A target that does not split into three segments is rejected and the counter is left as
it is. -/
theorem createEventMessage_malformed (g : Nat) (target token msg : Bytes)
    (h : (stringsSplit dot target).length ≠ 3) :
    createEventMessage g target token msg = (g, .error .ErrInvalidTarget) := by
  unfold createEventMessage
  simp [h]

/-- The ping of a malformed target fails inside `createEventMessage`: nothing is sent. -/
theorem amqpSender.Ping_malformed (env : Env) (d : AMQPDriver) (target : Bytes) (timeout : Nat)
    (w : World) (h : (stringsSplit dot target).length ≠ 3) :
    amqpSender.Ping env d target timeout w = (false, w) := by
  unfold amqpSender.Ping
  rw [createEventMessage_malformed _ _ _ _ h]

/-- No sender answers the ping of a malformed target, and the pings leave the world as it
is. -/
theorem pingLoop_malformed (env : Env) (target : Bytes)
    (h : (stringsSplit dot target).length ≠ 3) (senders : List AMQPDriver) (w : World) :
    pingLoop env target senders w = (none, w) := by
  induction senders with
  | nil => rfl
  | cons d senders ih =>
    unfold pingLoop
    rw [amqpSender.Ping_malformed env d target 3 w h]
    exact ih

/-- The first loop of `initializeSenders` dials every host, in order, and nothing else. -/
theorem dialHosts_log (env : Env) (config : Config) (hosts : List Bytes) : ∀ w : World,
    (dialHosts env config hosts w).2 =
      { w with log := w.log ++ hosts.map NetOp.dial } := by
  induction hosts with
  | nil => intro w; simp [dialHosts]
  | cons host hosts ih =>
    intro w
    unfold dialHosts
    simp only [AMQPDriver.Dial, perform]
    cases env.net.fails w.log (NetOp.dial host) with
    | none => simp only [ih, List.map_cons, List.append_assoc, List.singleton_append]
    | some e => simp only [ih, List.map_cons, List.append_assoc, List.singleton_append]

/-- C11, what the code does on a malformed target: for every target that does not split into
three segments, `Send` and `Call` of the smart sender return `ErrCannotConnectToServer`, not
`ErrInvalidTarget`: every ping fails inside `createEventMessage`, so `selectSender` finds no
sender.  The world they leave is the one `ready` leaves: a smart sender without connected
senders has dialled every configured host, in order, before the target is looked at, and one
with connected senders has done no network operation.  No ping probe is published.  The
single host sender, asked directly, does return `ErrInvalidTarget` and touches nothing. -/
theorem smart_sender_malformed_target (env : Env) (s : smartSender) (target message : Bytes)
    (timeout : Nat) (w : World) (h : (stringsSplit dot target).length ≠ 3) :
    (s.Send env target message w).1 = some .ErrCannotConnectToServer ∧
    (s.Call env target message timeout w).1 = .error .ErrCannotConnectToServer ∧
    (s.Send env target message w).2.2 = (s.ready env w).2 ∧
    (s.Call env target message timeout w).2.2 = (s.ready env w).2 ∧
    (s.senders = [] →
      (s.ready env w).2 = { w with log := w.log ++ s.config.Hosts.map NetOp.dial }) ∧
    (s.senders ≠ [] → (s.ready env w).2 = w) ∧
    (∀ d : AMQPDriver,
      amqpSender.Send env d target message w = (some .ErrInvalidTarget, w) ∧
      amqpSender.Call env d target message timeout w = (.error .ErrInvalidTarget, w)) := by
  have hsel := selectSender_ping env s target w
  rw [pingLoop_malformed env target h] at hsel
  refine ⟨?_, ?_, ?_, ?_, ?_, ?_, ?_⟩
  · unfold smartSender.Send
    rw [hsel]
  · unfold smartSender.Call
    rw [hsel]
  · unfold smartSender.Send
    rw [hsel]
  · unfold smartSender.Call
    rw [hsel]
  · intro hs
    unfold smartSender.ready smartSender.initializeSenders
    simp only [hs, List.length_nil, if_true]
    exact dialHosts_log env s.config s.config.Hosts w
  · intro hs
    unfold smartSender.ready
    have : s.senders.length ≠ 0 := fun h0 => hs (List.length_eq_zero.1 h0)
    simp only [this, if_false]
  · intro d
    constructor
    · unfold amqpSender.Send
      simp only [createEventMessage_malformed _ _ _ _ h]
    · unfold amqpSender.Call
      simp only [createEventMessage_malformed _ _ _ _ h]

set_option maxRecDepth 100000 in
/-- C11 at the target `a.b` on a fresh smart sender with three configured hosts: `Send` and
`Call` return `ErrCannotConnectToServer`, and `Send` has dialled the three hosts. -/
theorem smart_sender_malformed_target_witness :
    ((NewSender threeHostConfig).Send threeHostEnv (bytesOf "a.b") (bytesOf "x") ⟨0, []⟩).1 =
      some .ErrCannotConnectToServer ∧
    ((NewSender threeHostConfig).Call threeHostEnv (bytesOf "a.b") (bytesOf "x") 5 ⟨0, []⟩).1 =
      .error .ErrCannotConnectToServer ∧
    ((NewSender threeHostConfig).Send threeHostEnv (bytesOf "a.b") (bytesOf "x") ⟨0, []⟩).2.2.log =
      [.dial (bytesOf "h1"), .dial (bytesOf "h2"), .dial (bytesOf "h3")] :=
  ⟨(smart_sender_malformed_target threeHostEnv (NewSender threeHostConfig) (bytesOf "a.b")
      (bytesOf "x") 5 ⟨0, []⟩ (by decide)).1,
    (smart_sender_malformed_target threeHostEnv (NewSender threeHostConfig) (bytesOf "a.b")
      (bytesOf "x") 5 ⟨0, []⟩ (by decide)).2.1,
    by decide⟩

set_option maxRecDepth 100000 in
/-- The targets `a.b.c.d` and the empty target on a fresh smart sender with three hosts, and
the target `a.b` on the single host sender. -/
theorem smart_sender_malformed_examples :
    ((NewSender threeHostConfig).Send threeHostEnv (bytesOf "a.b.c.d") (bytesOf "x") ⟨0, []⟩).1 =
      some .ErrCannotConnectToServer ∧
    ((NewSender threeHostConfig).Call threeHostEnv (bytesOf "") (bytesOf "x") 5 ⟨0, []⟩).1 =
      .error .ErrCannotConnectToServer ∧
    ((NewSender threeHostConfig).Call threeHostEnv (bytesOf "") (bytesOf "x") 5 ⟨0, []⟩).2.2.log =
      [.dial (bytesOf "h1"), .dial (bytesOf "h2"), .dial (bytesOf "h3")] ∧
    (amqpSender.Send threeHostEnv (threeHostDriver "h2") (bytesOf "a.b") (bytesOf "x") ⟨0, []⟩).1 =
      some .ErrInvalidTarget := by
  decide

/-! ## Background services -/

/-- The function `processMessage` does not read `IsBackground`. -/
theorem worker.processMessage_withBackground {σ : Type} (name : Bytes) (srv : Service σ)
    (background : Bool) (j : job) (st : WorkerState σ) :
    (newWorker name (srv.withBackground background)).processMessage j st =
      (newWorker name srv).processMessage j st := rfl

/-- The function `Run` does not read `IsBackground`. -/
theorem worker.Run_withBackground {σ : Type} (name : Bytes) (srv : Service σ)
    (background : Bool) (queue : List job) : ∀ st : WorkerState σ,
    (newWorker name (srv.withBackground background)).Run queue st =
      (newWorker name srv).Run queue st := by
  induction queue with
  | nil => intro st; rfl
  | cons j queue ih =>
    intro st
    have h := ih ((newWorker name srv).processMessage j st)
    simp only [worker.Run, List.foldl_cons] at h ⊢
    rw [worker.processMessage_withBackground]
    exact h

/-- A worker of `SimpleService` does the same whether `Background` is set or not. -/
theorem worker.Run_SimpleService (env : Env) (name : Bytes) (queue : List job) :
    ∀ (st : WorkerState Bool) (background : Bool),
    (newWorker name (SimpleService env)).Run queue { st with user := background } =
      { (newWorker name (SimpleService env)).Run queue st with user := background } := by
  induction queue with
  | nil => intro st background; rfl
  | cons j queue ih =>
    intro st background
    simp only [worker.Run, List.foldl_cons] at ih ⊢
    have hstep : (newWorker name (SimpleService env)).processMessage j
          { st with user := background } =
        { (newWorker name (SimpleService env)).processMessage j st with
          user := background } := by
      unfold worker.processMessage
      by_cases h1 : j.Type_ = MessageType
      · simp only [h1, if_true]
        rfl
      · by_cases h2 : j.Type_ = RPCType
        · simp only [h1, h2, if_true, if_false]
          rfl
        · simp only [h1, h2, if_false]
    rw [hstep]
    exact ih _ background

/-- C12, what the code does with `IsBackground`: nothing.  A worker whose service answers
`IsBackground()` with true processes every job and every queue exactly as the worker of the
same service answering false: the same handler calls, one for each job in queue order on the
worker's own task, each from the state the one before left, and the same state and world at
the end.  The same holds of `SimpleService` with `Background` set and not set. -/
theorem worker_ignores_IsBackground {σ : Type} (name : Bytes) (srv : Service σ)
    (queue : List job) (st : WorkerState σ) (env : Env) (w : World) :
    (newWorker name (srv.withBackground true)).Run queue st =
      (newWorker name (srv.withBackground false)).Run queue st ∧
    (∀ j, (newWorker name (srv.withBackground true)).processMessage j st =
      (newWorker name (srv.withBackground false)).processMessage j st) ∧
    ((newWorker name (srv.withBackground true)).Run queue st).trace.map (·.call) =
      st.trace.map (·.call) ++ queue.filterMap specHandlerCall ∧
    ((newWorker name (SimpleService env)).Run queue ⟨true, w, []⟩).world =
      ((newWorker name (SimpleService env)).Run queue ⟨false, w, []⟩).world ∧
    ((newWorker name (SimpleService env)).Run queue ⟨true, w, []⟩).trace =
      ((newWorker name (SimpleService env)).Run queue ⟨false, w, []⟩).trace := by
  refine ⟨?_, ?_, worker.Run_trace _ _ _, ?_, ?_⟩
  · rw [worker.Run_withBackground, worker.Run_withBackground]
  · intro j
    rfl
  · have h := worker.Run_SimpleService env name queue ⟨false, w, []⟩ true
    exact (congrArg WorkerState.world h : _)
  · have h := worker.Run_SimpleService env name queue ⟨false, w, []⟩ true
    exact (congrArg WorkerState.trace h : _)

set_option maxRecDepth 100000 in
/-- C12 at a counting service with `IsBackground()` true and two RPC jobs: the handler of the
second job finds the count the first has left (it answers `1` after the first answered `0`),
and the run is the one of the same service with `IsBackground()` false. -/
theorem worker_ignores_IsBackground_witness :
    ((newWorker (bytesOf "math.sum") (countingService.withBackground true)).Run
        [sampleRPCJob "a", sampleRPCJob "b"] ⟨0, ⟨0, []⟩, []⟩).world.log.filterMap sentMessage =
      [(bytesOf "h1", EventResponse.toXML ⟨1, bytesOf "0"⟩),
       (bytesOf "h1", EventResponse.toXML ⟨1, bytesOf "1"⟩)] ∧
    (newWorker (bytesOf "math.sum") (countingService.withBackground true)).Run
        [sampleRPCJob "a", sampleRPCJob "b"] ⟨0, ⟨0, []⟩, []⟩ =
      (newWorker (bytesOf "math.sum") (countingService.withBackground false)).Run
        [sampleRPCJob "a", sampleRPCJob "b"] ⟨0, ⟨0, []⟩, []⟩ :=
  ⟨by decide,
    (worker_ignores_IsBackground (bytesOf "math.sum") countingService
      [sampleRPCJob "a", sampleRPCJob "b"] ⟨0, ⟨0, []⟩, []⟩ threeHostEnv ⟨0, []⟩).1⟩

/-! ## The reply of a call -/

/-- The wait returns a body exactly when it is the body of the first reply with the
correlation id, the events before it being replies with other correlation ids. -/
theorem awaitReply_ok_iff (corrId : Bytes) (evs : List ReplyEvent) (body : Bytes) :
    awaitReply corrId evs = .ok body ↔
      ∃ pre post, evs = pre ++ .reply corrId body :: post ∧
        ∀ e ∈ pre, e.skipped corrId = true := by
  induction evs with
  | nil =>
    simp only [awaitReply]
    constructor
    · intro h; cases h
    · rintro ⟨pre, post, h, _⟩
      cases pre <;> cases h
  | cons ev rest ih =>
    cases ev with
    | timer =>
      simp only [awaitReply]
      constructor
      · intro h; cases h
      · rintro ⟨pre, post, h, hp⟩
        cases pre with
        | nil => cases h
        | cons p pre =>
          simp only [List.cons_append, List.cons.injEq] at h
          have := hp p (by simp)
          rw [← h.1] at this
          simp [ReplyEvent.skipped] at this
    | reply cid b =>
      simp only [awaitReply]
      by_cases hc : cid = corrId
      · subst hc
        simp only [if_true]
        constructor
        · intro h
          cases h
          exact ⟨[], rest, rfl, by simp⟩
        · rintro ⟨pre, post, h, hp⟩
          cases pre with
          | nil =>
            simp only [List.nil_append, List.cons.injEq, ReplyEvent.reply.injEq] at h
            rw [h.1.2]
          | cons p pre =>
            simp only [List.cons_append, List.cons.injEq] at h
            have := hp p (by simp)
            rw [← h.1] at this
            simp [ReplyEvent.skipped] at this
      · simp only [hc, if_false]
        rw [ih]
        constructor
        · rintro ⟨pre, post, h, hp⟩
          refine ⟨.reply cid b :: pre, post, by rw [h]; rfl, ?_⟩
          intro e he
          rcases List.mem_cons.1 he with h1 | h1
          · subst h1
            simp [ReplyEvent.skipped, hc]
          · exact hp e h1
        · rintro ⟨pre, post, h, hp⟩
          cases pre with
          | nil =>
            simp only [List.nil_append, List.cons.injEq, ReplyEvent.reply.injEq] at h
            exact absurd h.1.1 hc
          | cons p pre =>
            simp only [List.cons_append, List.cons.injEq] at h
            exact ⟨pre, post, h.2, fun e he => hp e (by simp [he])⟩

/-- The only error of the wait is `ErrTimeout`. -/
theorem awaitReply_error (corrId : Bytes) (evs : List ReplyEvent) (e : Error)
    (h : awaitReply corrId evs = .error e) : e = .ErrTimeout := by
  induction evs with
  | nil => simp only [awaitReply, Except.error.injEq] at h; exact h.symm
  | cons ev rest ih =>
    cases ev with
    | timer => simp only [awaitReply, Except.error.injEq] at h; exact h.symm
    | reply cid b =>
      simp only [awaitReply] at h
      by_cases hc : cid = corrId
      · simp [hc] at h
      · simp only [hc, if_false] at h
        exact ih h

/-- The wait times out exactly when the timer comes before any reply with the correlation
id; the timer fires behind the last event if not before. -/
theorem awaitReply_timeout_iff (corrId : Bytes) (evs : List ReplyEvent) :
    awaitReply corrId evs = .error .ErrTimeout ↔
      ∃ pre post, evs ++ [.timer] = pre ++ .timer :: post ∧
        ∀ e ∈ pre, e.skipped corrId = true := by
  induction evs with
  | nil =>
    simp only [awaitReply, true_iff]
    exact ⟨[], [], rfl, by simp⟩
  | cons ev rest ih =>
    cases ev with
    | timer =>
      simp only [awaitReply, true_iff]
      exact ⟨[], rest ++ [ReplyEvent.timer], by simp, by simp⟩
    | reply cid b =>
      simp only [awaitReply]
      by_cases hc : cid = corrId
      · subst hc
        simp only [if_true]
        constructor
        · intro h; cases h
        · rintro ⟨pre, post, h, hp⟩
          cases pre with
          | nil => simp at h
          | cons p pre =>
            simp only [List.cons_append, List.cons.injEq] at h
            have := hp p (by simp)
            rw [← h.1] at this
            simp [ReplyEvent.skipped] at this
      · simp only [hc, if_false]
        rw [ih]
        constructor
        · rintro ⟨pre, post, h, hp⟩
          refine ⟨.reply cid b :: pre, post, by simp [h], ?_⟩
          intro e he
          rcases List.mem_cons.1 he with h1 | h1
          · subst h1
            simp [ReplyEvent.skipped, hc]
          · exact hp e h1
        · rintro ⟨pre, post, h, hp⟩
          cases pre with
          | nil => simp at h
          | cons p pre =>
            simp only [List.cons_append, List.cons.injEq] at h
            exact ⟨pre, post, h.2, fun e he => hp e (by simp [he])⟩

/-- When the reply queue is declared, the request published and the reply queue consumed
without an error, `AMQPDriver.Call` returns what the wait for the reply returns, and has
performed the operations of `callOps` and deleted the reply queue. -/
theorem AMQPDriver.Call_of_setup (env : Env) (d : AMQPDriver) (queue msg : Bytes)
    (timeout : Nat) (w : World) (hs : SetupSucceeds env d queue msg w) :
    AMQPDriver.Call env d queue msg timeout w =
      (awaitReply (corrIdOf env d w) (replyEvents env d queue msg w),
        { w with log := w.log ++ callOps env d queue msg w ++
            [.queueDelete d.host (replyQueueOf env w)] }) := by
  obtain ⟨h1, h2, h3⟩ := hs
  simp only [callOps, List.take, corrIdOf, replyQueueOf] at h1 h2 h3
  simp only [AMQPDriver.Call, perform, h1, h2, h3, replyEvents, callOps, corrIdOf,
    replyQueueOf, List.append_assoc, List.cons_append, List.nil_append]


/-- C13. RPC reply correlation: when the reply queue is declared, the request published and
the reply queue consumed without an error, `AMQPDriver.Call` has published the request with
the correlation id `corrIdOf` and the reply queue, and deletes the reply queue at the end.  It
returns a body exactly when that is the body of the first reply with this correlation id,
every event before it being a reply with another correlation id (these are skipped).  It
returns `ErrTimeout` exactly when the timer expires before any reply with this correlation
id, and no other error.  `Call` of the single host sender, for a target and message that give
this routing key and envelope, returns the error of the driver, or the decode error of the
body, or the `Message` of the body decoded as an `EventResponse`. -/
theorem rpc_reply_correlation (env : Env) (d : AMQPDriver) (queue msg : Bytes) (timeout : Nat)
    (w : World) (hs : SetupSucceeds env d queue msg w) :
    (AMQPDriver.Call env d queue msg timeout w).2.log =
      w.log ++ callOps env d queue msg w ++ [.queueDelete d.host (replyQueueOf env w)] ∧
    (∀ body, (AMQPDriver.Call env d queue msg timeout w).1 = .ok body ↔
      ∃ pre post, replyEvents env d queue msg w =
          pre ++ .reply (corrIdOf env d w) body :: post ∧
        ∀ e ∈ pre, e.skipped (corrIdOf env d w) = true) ∧
    ((AMQPDriver.Call env d queue msg timeout w).1 = .error .ErrTimeout ↔
      ∃ pre post, replyEvents env d queue msg w ++ [.timer] = pre ++ .timer :: post ∧
        ∀ e ∈ pre, e.skipped (corrIdOf env d w) = true) ∧
    (∀ e, (AMQPDriver.Call env d queue msg timeout w).1 = .error e → e = .ErrTimeout) ∧
    (∀ target message g m,
      createEventMessage w.globalID target
          (generateToken env.sha1 d.config env.loc (env.net.now w.log) (bytesOf "now")) message =
        (g, .ok (queue, m)) →
      m.toXML = msg →
      (amqpSender.Call env d target message timeout w).1 =
        match (AMQPDriver.Call env d queue msg timeout w).1 with
        | .error e => .error e
        | .ok body =>
          match decodeEventResponse env.u body with
          | .error e => .error e
          | .ok resp => .ok resp.Message) := by
  have hc := AMQPDriver.Call_of_setup env d queue msg timeout w hs
  refine ⟨by rw [hc], ?_, ?_, ?_, ?_⟩
  · intro body
    rw [hc]
    exact awaitReply_ok_iff _ _ _
  · rw [hc]
    exact awaitReply_timeout_iff _ _
  · intro e he
    rw [hc] at he
    exact awaitReply_error _ _ _ he
  · intro target message g m hm hx
    have hc2 := AMQPDriver.Call_of_setup env d queue msg timeout { w with globalID := g } hs
    unfold amqpSender.Call
    simp only [hm, hx]
    rw [hc2, hc]
    simp only [replyEvents, callOps, corrIdOf, replyQueueOf]
    cases awaitReply (env.net.randString (w.log ++ [NetOp.declareQueue d.host [] true]))
        (env.net.events (w.log ++ [NetOp.declareQueue d.host [] true,
          NetOp.publish d.host d.config.ExchangeName queue
            (env.net.randString (w.log ++ [NetOp.declareQueue d.host [] true]))
            (env.net.queueName w.log) msg,
          NetOp.consume d.host (env.net.queueName w.log)])) with
    | error e => rfl
    | ok body =>
      simp only
      cases decodeEventResponse env.u body <;> rfl

set_option maxRecDepth 100000 in
/-- C13 at the second host of the three host example: the stray reply with the correlation id
`beef` is skipped and the body of the reply with the id of the call is returned. -/
theorem rpc_reply_correlation_witness :
    SetupSucceeds threeHostEnv (threeHostDriver "h2") (bytesOf "node") (bytesOf "[10,20]")
        ⟨0, []⟩ ∧
    (AMQPDriver.Call threeHostEnv (threeHostDriver "h2") (bytesOf "node") (bytesOf "[10,20]") 5
        ⟨0, []⟩).1 = .ok (EventResponse.toXML ⟨1, bytesOf "30"⟩) :=
  ⟨⟨rfl, rfl, rfl⟩,
    ((rpc_reply_correlation threeHostEnv (threeHostDriver "h2") (bytesOf "node")
      (bytesOf "[10,20]") 5 ⟨0, []⟩ ⟨rfl, rfl, rfl⟩).2.1 _).2
      ⟨[.reply (bytesOf "beef") (bytesOf "stray")], [], by decide, by decide⟩⟩

set_option maxRecDepth 100000 in
/-- The sender's `Call` at a host that answers and at one that does not; a matching reply
behind the timer comes too late; a matching reply that is no envelope gives the decode
error. -/
theorem sender_call_examples :
    (amqpSender.Call threeHostEnv (threeHostDriver "h2") (bytesOf "node.math.sum")
        (bytesOf "[10,20]") 5 ⟨0, []⟩).1 = .ok (bytesOf "30") ∧
    (amqpSender.Call threeHostEnv (threeHostDriver "h1") (bytesOf "node.math.sum")
        (bytesOf "[10,20]") 5 ⟨0, []⟩).1 = .error .ErrTimeout ∧
    awaitReply (bytesOf "c0ffee")
        [.reply (bytesOf "beef") (bytesOf "stray"), .timer,
         .reply (bytesOf "c0ffee") (bytesOf "late")] = .error .ErrTimeout ∧
    (amqpSender.Call
        { threeHostEnv with net := { threeHostNet with
            events := fun _ => [.reply (bytesOf "c0ffee") (bytesOf "no envelope")] } }
        (threeHostDriver "h2") (bytesOf "node.math.sum") (bytesOf "[10,20]") 5 ⟨0, []⟩).1 =
      .error .ErrInvalidResponse := by
  decide

end Servicebus
